import Mathlib

/-!
# Verification of the mmd_tools_append mesh-segmentation core

A shallow embedding of `src/mmd_uuunyaa_tools/editors/segmentation.py`:
the cost model, the adjacency graph builder (`_calc_segment_contacts`),
the agglomerative merge engine (`auto_segment`) and the per-segment color
assignment (`assign_vertex_colors`).

Modelling conventions:
* Python floats are modelled by `ℚ` (exact arithmetic).  Quantities that the
  source obtains from external geometry libraries (`mathutils.geometry.area_tri`,
  `BMEdge.calc_length`, `BMLoop.calc_normal().angle`, vertex coordinates) are
  generally irrational reals; they enter the embedding as input data carried by
  the mesh model, never recomputed from coordinates.  The external constant
  `2/π` (`half_pi_inverse`) and the external function
  `_area_to_circumference(a) = sqrt(a)/sqrt(π)` are parameters (`halfPiInv`,
  `circ`) of the embedding.
* Mutable Python objects with identity-by-index equality (`Segment.__eq__`,
  `SegmentContact.__eq__`) are represented as arena entries: contacts store the
  integer ids of their two endpoint segments, and the merge state carries
  `id → value` stores.  This matches the source's by-index object equality.
* Python `dict`s preserving insertion order are association lists;
  Python `set`s of small integers are `Finset ℕ`, iterated in ascending order
  where the source iterates them (CPython iterates small-int sets this way;
  this is the one place the source depends on an unspecified iteration order).
* `bisect.bisect_left(a, x, key)` is an external library function documented
  for ascending lists; it is embedded by its documented semantics: the length
  of the longest prefix whose keys are `< x`.  (On the lists the algorithm
  builds this agrees with CPython's binary search; sortedness of the working
  list is proved below where it matters.)
* Python float division by zero raises `ZeroDivisionError`; `ℚ` division
  totalises it as `0`.  A `checked` variant of the perimeter-cost function
  makes each division's zero-divisor failure explicit, to reason about the
  raising behaviour of the source.
-/

set_option maxHeartbeats 2000000
set_option maxRecDepth 16000

namespace Seg

abbrev SegId := Nat
abbrev SCId := Nat

/-- Embeds `Segment` (segmentation.py:76-89).  `tri_loop0s` holds the
canonical triangle ids of the member triangles (the source stores the
`BMLoop` objects `tri_loop[0]`; triangles are identified here by the stable
canonical id `_to_tri_loop_index` gives them). -/
structure Segment where
  index : SegId
  area : ℚ := 0
  perimeter : ℚ := 0
  non_contact_perimeter : ℚ := 0
  tri_loop0s : Finset Nat := ∅
  segment_contact_ids : Finset SCId := ∅
deriving DecidableEq

/-- Embeds `SegmentContact` (segmentation.py:92-119).  `segment0`/`segment1`
are the arena ids of the two endpoint segments (the source stores object
references compared by index). -/
structure SegmentContact where
  index : SCId
  cost : ℚ
  cost_normalized : ℚ
  length : ℚ
  segment0 : SegId
  segment1 : SegId
deriving DecidableEq

/-- `SegmentContact.segment_contacts` (segmentation.py:101-102). -/
def SegmentContact.contactsSeg (sc : SegmentContact) (s : SegId) : Bool :=
  sc.segment0 == s || sc.segment1 == s

/-- `SegmentContact.segment_replace` (segmentation.py:104-113): re-point
endpoints equal to `src` to `dst`; returns the replaced contact and whether a
replacement happened. -/
def SegmentContact.segment_replace (sc : SegmentContact) (src dst : SegId) :
    SegmentContact × Bool :=
  if sc.segment0 = src then
    if sc.segment1 = src then ({ sc with segment0 := dst, segment1 := dst }, true)
    else ({ sc with segment0 := dst }, true)
  else if sc.segment1 = src then ({ sc with segment1 := dst }, true)
  else (sc, false)

/-- `SegmentContact.calc_perimeter_cost` (segmentation.py:121-151), with the
external `_area_to_circumference` passed as `circ`.  `ℚ` division totalises
the source's float divisions (Python raises `ZeroDivisionError` on a zero
divisor; see `calc_perimeter_cost_checked`). -/
def calc_perimeter_cost (circ : ℚ → ℚ) (sc : SegmentContact)
    (s0 s1 : Segment) : ℚ :=
  let meanRatio : ℚ := (s0.area + s1.area) /
    (s0.area / (s0.perimeter / circ s0.area) + s1.area / (s1.perimeter / circ s1.area))
  let mergedRatio : ℚ := (s0.perimeter + s1.perimeter - 2 * sc.length) /
    circ (s0.area + s1.area)
  max (mergedRatio / meanRatio - 1) 0

/-- Division with the zero-divisor case made explicit, as Python float
division raises `ZeroDivisionError` there. -/
def checkedDiv (a b : ℚ) : Option ℚ := if b = 0 then none else some (a / b)

/-- `SegmentContact.calc_perimeter_cost` evaluated exactly as the Python
expression evaluates, with every division checked: `none` means the source
raises `ZeroDivisionError` at the corresponding division. -/
def calc_perimeter_cost_checked (circ : ℚ → ℚ) (sc : SegmentContact)
    (s0 s1 : Segment) : Option ℚ := do
  let r0 ← checkedDiv s0.perimeter (circ s0.area)
  let t0 ← checkedDiv s0.area r0
  let r1 ← checkedDiv s1.perimeter (circ s1.area)
  let t1 ← checkedDiv s1.area r1
  let meanRatio ← checkedDiv (s0.area + s1.area) (t0 + t1)
  let mergedRatio ← checkedDiv (s0.perimeter + s1.perimeter - 2 * sc.length)
    (circ (s0.area + s1.area))
  let q ← checkedDiv mergedRatio meanRatio
  pure (max (q - 1) 0)

example :
    calc_perimeter_cost_checked (fun q => q) ⟨1, 0, 0, 1, 1, 2⟩
      { index := 1, area := 0, perimeter := 0 }
      { index := 2, area := 4, perimeter := 9 } = none := by decide

/-! ## Segmentation colors (segmentation.py:19-57) -/

abbrev RGBA := ℚ × ℚ × ℚ × ℚ

/-- `_to_blender_color` (segmentation.py:19-21). -/
def to_blender_color (c : Nat) : ℚ := ((min (max 0 c) 255 : Nat) : ℚ) / 255

/-- The raw rgb hex list of `SEGMANTATION_COLORS` (segmentation.py:34-55). -/
def segmantationRGBList : List Nat := [
  0x787878, 0xb47878, 0x06e6e6, 0x503232, 0x04c803, 0x787850, 0x8c8c8c, 0xcc05ff,
  0xe6e6e6, 0x04fa07, 0xe005ff, 0xebff07, 0x96053d, 0x787846, 0x08ff33, 0xff0652,
  0x8fff8c, 0xccff04, 0xff3307, 0xcc4603, 0x0066c8, 0x3de6fa, 0xff0633, 0x0b66ff,
  0xff0747, 0xff09e0, 0x0907e6, 0xdcdcdc, 0xff095c, 0x7009ff, 0x08ffd6, 0x07ffe0,
  0xffb806, 0x0aff47, 0xff290a, 0x07ffff, 0xe0ff08, 0x6608ff, 0xff3d06, 0xffc207,
  0xff7a08, 0x00ff14, 0xff0829, 0xff0599, 0x0633ff, 0xeb0cff, 0xa09614, 0x00a3ff,
  0x8c8c8c, 0xfa0a0f, 0x14ff00, 0x1fff00, 0xff1f00, 0xffe000, 0x99ff00, 0x0000ff,
  0xff4700, 0x00ebff, 0x00adff, 0x1f00ff, 0x0bc8c8, 0xff5200, 0x00fff5, 0x003dff,
  0x00ff70, 0x00ff85, 0xff0000, 0xffa300, 0xff6600, 0xc2ff00, 0x008fff, 0x33ff00,
  0x0052ff, 0x00ff29, 0x00ffad, 0x0a00ff, 0xadff00, 0x00ff99, 0xff5c00, 0xff00ff,
  0xff00f5, 0xff0066, 0xffad00, 0xff0014, 0xffb8b8, 0x001fff, 0x00ff3d, 0x0047ff,
  0xff00cc, 0x00ffc2, 0x00ff52, 0x000aff, 0x0070ff, 0x3300ff, 0x00c2ff, 0x007aff,
  0x00ffa3, 0xff9900, 0x00ff0a, 0xff7000, 0x8fff00, 0x5200ff, 0xa3ff00, 0xffeb00,
  0x08b8aa, 0x8500ff, 0x00ff5c, 0xb800ff, 0xff001f, 0x00b8ff, 0x00d6ff, 0xff0070,
  0x5cff00, 0x00e0ff, 0x70e0ff, 0x46b8a0, 0xa300ff, 0x9900ff, 0x47ff00, 0xff00a3,
  0xffcc00, 0xff008f, 0x00ffeb, 0x85ff00, 0xff00eb, 0xf500ff, 0xff007a, 0xfff500,
  0x0abed4, 0xd6ff00, 0x00ccff, 0x1400ff, 0xffff00, 0x0099ff, 0x0029ff, 0x00ffcc,
  0x2900ff, 0x29ff00, 0xad00ff, 0x00f5ff, 0x4700ff, 0x7a00ff, 0x00ffb8, 0x005cff,
  0xb8ff00, 0x0085ff, 0xffd600, 0x19c2c2, 0x66ff00, 0x5c00ff]

/-- `SEGMANTATION_COLORS` (segmentation.py:27-56): the comprehension over the
hex list, extracting the channels `0xff & (rgb >> 16)`, `0xff & (rgb >> 8)`,
`0xff & rgb` with alpha `1.0`. -/
def SEGMANTATION_COLORS : List RGBA :=
  segmantationRGBList.map (fun rgb =>
    (to_blender_color (0xff &&& (rgb >>> 16)), to_blender_color (0xff &&& (rgb >>> 8)),
     to_blender_color (0xff &&& rgb), 1))

/-- Association-list overwrite, modelling Python dict assignment: the first
binding of an existing key is overwritten in place, a missing key is
appended. -/
def setAssoc {β : Type} : List (Nat × β) → Nat → β → List (Nat × β)
  | [], k, v => [(k, v)]
  | q :: t, k, v => if q.1 = k then (k, v) :: t else q :: setAssoc t k v

/-- The inner loop of `assign_vertex_colors` (segmentation.py:389-394): write
segment `q.2`'s color — the palette entry at its enumeration index `q.1`
modulo the palette size — onto each of its triangles. -/
def writeSegmentColor (colors : List RGBA) (count : Nat)
    (acc : List (Nat × RGBA)) (q : Nat × Segment) : List (Nat × RGBA) :=
  let c := colors.getD (q.1 % count) (0, 0, 0, 1)
  (q.2.tri_loop0s.sort (· ≤ ·)).foldl (fun acc' t => setAssoc acc' t c) acc

/-- `assign_vertex_colors` (segmentation.py:377-394).  The enumeration order
of the Python `set` argument `segments` is made explicit as the list order;
`shuffle` stands for the external `random.Random(seed).shuffle` (only invoked
when `seed ≠ 0`, segmentation.py:385-387).  The result maps a triangle's
canonical id to the color written to its three loops. -/
def assign_vertex_colors (segments : List Segment)
    (shuffle : List RGBA → List RGBA) (seed : Int) : List (Nat × RGBA) :=
  let count := SEGMANTATION_COLORS.length
  let colors := if seed ≠ 0 then shuffle SEGMANTATION_COLORS else SEGMANTATION_COLORS
  (segments.enum).foldl (writeSegmentColor colors count) []

/-! ## The mesh input model

The builder `_calc_segment_contacts` (segmentation.py:433-623) walks
`calc_loop_triangles()` and the radial loop structure of a `BMesh`.  That
external structure is embedded as follows:

* `MeshTri` — one entry per loop triangle, carrying the canonical triangle id
  `_to_tri_loop_index` computes (segmentation.py:186-198), the face's
  selection flag and material index, its externally computed area
  (`mathutils.geometry.area_tri`, line 527) and perimeter (sum of the three
  edge lengths, line 528), and its three vertex ids in loop order (used by
  `_calc_heaviest_vertex_group_index`).
* `MeshAdj` — one entry per *unique* radial loop pair, i.e. per element that
  survives the `processed_loop_pair_ids` dedup (segmentation.py:536-540),
  listed in discovery order and tagged with the discovering (`this`) side.
  It carries the shared edge's externally computed length, its endpoint
  vertex ids (`this_edge.verts`), the `link_loop_prev.vert` far vertices of
  the two sides, the edge `smooth`/`seam` flags, and the externally computed
  angle between the two triangle normals (line 588).
* `MeshVert` — one entry per `BMesh` vertex with its deform-layer weight map
  in layer order (`_calc_vi2vgi2weights` input, segmentation.py:626-631).
-/

structure MeshVert where
  index : Nat
  weights : List (Nat × ℚ)
deriving DecidableEq

structure MeshTri where
  tli : Nat
  select : Bool
  material_index : Nat
  area : ℚ
  perimeter : ℚ
  verts : List Nat
deriving DecidableEq

structure MeshAdj where
  this_tli : Nat
  that_tli : Nat
  edge_length : ℚ
  vert0 : Nat
  vert1 : Nat
  this_far : Nat
  that_far : Nat
  smooth : Bool
  seam : Bool
  normal_angle : ℚ
deriving DecidableEq

structure Mesh where
  verts : List MeshVert
  tris : List MeshTri
  adjs : List MeshAdj
deriving DecidableEq

/-- The parameter set of `auto_segment` (segmentation.py:224-237). -/
structure Params where
  cost_threshold : ℚ
  maximum_area_threshold : ℚ
  minimum_area_threshold : ℚ
  contact_length_factor : ℚ
  face_angle_cost_factor : ℚ
  perimeter_cost_factor : ℚ
  vertex_group_weight_cost_factor : ℚ
  vertex_group_change_cost_factor : ℚ
  material_change_cost_factor : ℚ
  edge_sharp_cost_factor : ℚ
  edge_seam_cost_factor : ℚ
  ignore_vertex_group_indices : Finset Nat
deriving DecidableEq

/-- The two external real-valued ingredients of the cost model:
`circ` models `_area_to_circumference` (`sqrt(area)/sqrt(π)`,
segmentation.py:60-64) and `halfPiInv` models `half_pi_inverse = 2/math.pi`
(segmentation.py:508). -/
structure Ext where
  circ : ℚ → ℚ
  halfPiInv : ℚ

/-! ## Pair-id packing and weight lookups -/

/-- `int(math.log2(n)/2 + 1)`, the shift-width computation shared by
`vertex_pair_shift` (line 447), `loop_pair_shift` (line 500) and
`segment_pair_shift` (line 257).  `math.log2(0)` raises `ValueError` in the
source; the total model returns `1` there and `auto_segment_raises_value_error`
flags the raising inputs. -/
def pairShift (n : Nat) : Nat := Nat.log2 n / 2 + 1

/-- The bit-packed canonical unordered-pair key shared by `_to_loop_pair_id`,
`_to_vertex_pair_id` and `_to_segment_pair_id` (segmentation.py:162-183):
`min + (max << shift)`. -/
def toPairId (i0 i1 shift : Nat) : Nat :=
  if i0 > i1 then i1 + (i0 <<< shift) else i0 + (i1 <<< shift)

/-- `_calc_vi2vgi2weights` (segmentation.py:626-631): per-vertex weight maps
with the ignore-list groups filtered out, in vertex order. -/
def calc_vi2vgi2weights (m : Mesh) (ignore : Finset Nat) :
    List (Nat × List (Nat × ℚ)) :=
  m.verts.map (fun v => (v.index, v.weights.filter (fun p => !(decide (p.1 ∈ ignore)))))

/-- `vi2vgi2weights[vi]`.  A missing vertex would be a `KeyError` in the
source; the total model returns the empty map (unreachable for well-formed
meshes, whose adjacency records only name mesh vertices). -/
def vgWeights (vi2w : List (Nat × List (Nat × ℚ))) (vi : Nat) : List (Nat × ℚ) :=
  (vi2w.lookup vi).getD []

/-- The body of `_calc_vertex_group_weight_cost` (segmentation.py:456-466) on
two weight maps: sum `|w0[g] − w1.get(g, 0)|` over the groups of `w0`, plus
`|w1[g] − w0.get(g, 0)|` over the groups of `w1` (a group present in both maps
contributes twice). -/
def pair_weight_cost (w0 w1 : List (Nat × ℚ)) : ℚ :=
  (w0.map (fun p => |p.2 - ((w1.lookup p.1).getD 0)|)).sum
  + (w1.map (fun p => |p.2 - ((w0.lookup p.1).getD 0)|)).sum

/-- `_calc_vertex_group_weight_cost` (segmentation.py:451-466) with its
memo table `vpi2weights` keyed by the packed vertex-pair id: a hit returns the
cached value (even when distinct pairs collide on the packed key), a miss
computes and appends. -/
def calcVGWC (vi2w : List (Nat × List (Nat × ℚ))) (vshift : Nat)
    (tbl : List (Nat × ℚ)) (v0 v1 : Nat) : ℚ × List (Nat × ℚ) :=
  let vpi := toPairId v0 v1 vshift
  match tbl.lookup vpi with
  | some w => (w, tbl)
  | none =>
    let w := pair_weight_cost (vgWeights vi2w v0) (vgWeights vi2w v1)
    (w, tbl ++ [(vpi, w)])

/-- The accumulating loop of `_calc_heaviest_vertex_group_index`
(segmentation.py:477-487): `weight += acc.get(vgi, 0)`; strict `>` against the
running maximum keeps the first-seen group on ties; `acc[vgi] = weight`. -/
def heaviestFold : List (Nat × ℚ) → Int → ℚ → List (Nat × ℚ) → Int
  | [], maxVgi, _, _ => maxVgi
  | (vgi, w) :: rest, maxVgi, maxW, acc =>
    let w' := w + ((acc.lookup vgi).getD 0)
    if w' > maxW then heaviestFold rest (Int.ofNat vgi) w' (setAssoc acc vgi w')
    else heaviestFold rest maxVgi maxW (setAssoc acc vgi w')

/-- `_calc_heaviest_vertex_group_index` (segmentation.py:470-487) for a
triangle: chain the three vertices' weight items and fold, starting from
`max_vgi = -1`, `max_weight = -1.0`.  The source memoises this per canonical
triangle id; with distinct ids the memo is invisible and the computation is
pure per triangle. -/
def calc_heaviest_vertex_group_index (vi2w : List (Nat × List (Nat × ℚ)))
    (t : MeshTri) : Int :=
  heaviestFold ((t.verts.map (vgWeights vi2w)).flatten) (-1) (-1) []

/-! ## The adjacency graph builder `_calc_segment_contacts` -/

/-- Pointwise update of an arena store. -/
def updSeg (f : SegId → Segment) (i : SegId) (g : Segment → Segment) :
    SegId → Segment :=
  fun j => if j = i then g (f j) else f j

/-- The builder's accumulating state: the `tli2segment` defaultdict in
insertion order together with the `__next_segment_id` counter and the arena of
segment values (segmentation.py:492-506), the `sci2segment_contacts` dict in
creation order with `next_segment_contact_id` (lines 506-510), and the
`vpi2weights` memo table (line 449). -/
structure BuildState where
  tli2segment : List (Nat × SegId)
  next_segment_id : Nat
  segments : SegId → Segment
  sci2segment_contacts : List (SCId × SegmentContact)
  next_segment_contact_id : SCId
  vpi2weights : List (Nat × ℚ)

def initialBuildState : BuildState :=
  { tli2segment := [], next_segment_id := 0, segments := fun i => { index := i },
    sci2segment_contacts := [], next_segment_contact_id := 0, vpi2weights := [] }

/-- `tli2segment[tli]` with the defaultdict `_new_segment` factory
(segmentation.py:492-503): a missing key allocates the next segment id
(pre-incremented, so ids start at 1).  A fresh `Segment(id)` has zero area,
zero perimeters and empty sets, which is what the arena store already holds at
every unallocated id. -/
def getSegId (bs : BuildState) (tli : Nat) : SegId × BuildState :=
  match bs.tli2segment.lookup tli with
  | some sid => (sid, bs)
  | none =>
    let sid := bs.next_segment_id + 1
    (sid, { bs with tli2segment := bs.tli2segment ++ [(tli, sid)],
                    next_segment_id := sid })

/-- Processing of one deduplicated radial loop pair inside the edge loop of a
selected triangle (segmentation.py:536-615).  `t` is the `this` triangle,
`thisSid` its segment id, `thisHeaviest` its heaviest vertex-group index; the
`ℚ` component of the state is `this_segment_contact_perimeter`.  The `this`
side's cached per-loop values (edge length, sharp/seam costs, the two
`(endpoint, this_far)` weight costs, lines 546-564) are recomputed per record
here; they are pure given the memo table, so the caching is value-invisible. -/
def processAdj (ext : Ext) (p : Params) (vi2w : List (Nat × List (Nat × ℚ)))
    (vshift : Nat) (m : Mesh) (t : MeshTri) (thisSid : SegId)
    (thisHeaviest : Int) (st : BuildState × ℚ) (a : MeshAdj) : BuildState × ℚ :=
  let bs := st.1
  match m.tris.find? (fun tt => tt.tli == a.that_tli) with
  | none => st
  | some thatTri =>
    if !thatTri.select then st
    else
      let r0 := calcVGWC vi2w vshift bs.vpi2weights a.vert0 a.this_far
      let r1 := calcVGWC vi2w vshift r0.2 a.vert1 a.this_far
      let this_loop_vertex_group_weight_cost := r0.1 + r1.1
      let cost_edge_sharp : ℚ := a.edge_length * (if a.smooth then 0 else 1)
      let cost_edge_seam : ℚ := a.edge_length * (if a.seam then 1 else 0)
      let thatHeaviest := calc_heaviest_vertex_group_index vi2w thatTri
      let ralloc := getSegId { bs with vpi2weights := r1.2 } a.that_tli
      let bs2 := ralloc.2
      let thatSid := ralloc.1
      let r2 := calcVGWC vi2w vshift bs2.vpi2weights a.vert0 a.that_far
      let r3 := calcVGWC vi2w vshift r2.2 a.vert1 a.that_far
      let cost_vertex_group_weight : ℚ := a.edge_length * (1/4) *
        (this_loop_vertex_group_weight_cost + r2.1 + r3.1)
      let cost_vertex_group_change : ℚ :=
        a.edge_length * (if thisHeaviest = thatHeaviest then 0 else 1)
      let cost_face_angle : ℚ := a.edge_length * ext.halfPiInv * a.normal_angle
      let cost_material_change : ℚ :=
        a.edge_length * (if t.material_index = thatTri.material_index then 0 else 1)
      let cost_total : ℚ :=
        p.vertex_group_weight_cost_factor * cost_vertex_group_weight
        + p.vertex_group_change_cost_factor * cost_vertex_group_change
        + p.face_angle_cost_factor * cost_face_angle
        + p.material_change_cost_factor * cost_material_change
        + p.edge_sharp_cost_factor * cost_edge_sharp
        + p.edge_seam_cost_factor * cost_edge_seam
      let sci := bs2.next_segment_contact_id + 1
      let sc : SegmentContact :=
        { index := sci, cost := cost_total,
          cost_normalized := cost_total /
            (if p.contact_length_factor > 0 then a.edge_length * p.contact_length_factor else 1),
          length := a.edge_length, segment0 := thisSid, segment1 := thatSid }
      let segs := updSeg (updSeg bs2.segments thisSid (fun s =>
          { s with segment_contact_ids := insert sci s.segment_contact_ids }))
        thatSid (fun s =>
          { s with segment_contact_ids := insert sci s.segment_contact_ids })
      ({ bs2 with vpi2weights := r3.2,
                  next_segment_contact_id := sci,
                  sci2segment_contacts := bs2.sci2segment_contacts ++ [(sci, sc)],
                  segments := segs },
       st.2 + a.edge_length)

/-- Processing of one entry of `tri_loops` (segmentation.py:513-617): skip
unselected faces; compute the heaviest vertex-group index; allocate/fetch the
triangle's segment and set its area, perimeter and member triangle; process
the triangle's deduplicated radial pairs in discovery order; finally set
`non_contact_perimeter = perimeter − Σ` of the contact lengths discovered
from this side. -/
def processTri (ext : Ext) (p : Params) (vi2w : List (Nat × List (Nat × ℚ)))
    (vshift : Nat) (m : Mesh) (bs : BuildState) (t : MeshTri) : BuildState :=
  if !t.select then bs
  else
    let thisHeaviest := calc_heaviest_vertex_group_index vi2w t
    let ra := getSegId bs t.tli
    let sid := ra.1
    let bs1 := ra.2
    let bs2 := { bs1 with segments := updSeg bs1.segments sid (fun s =>
      { s with area := t.area, perimeter := t.perimeter,
               tri_loop0s := insert t.tli s.tri_loop0s }) }
    let rb := (m.adjs.filter (fun a => a.this_tli == t.tli)).foldl
      (processAdj ext p vi2w vshift m t sid thisHeaviest) (bs2, 0)
    { rb.1 with segments := updSeg rb.1.segments sid (fun s =>
      { s with non_contact_perimeter := s.perimeter - rb.2 }) }

structure BuildResult where
  contacts : List (SCId × SegmentContact)
  segments : SegId → Segment
  segment_count : Nat

/-- `_calc_segment_contacts` (segmentation.py:433-623): fold the triangles,
then — when `perimeter_cost_factor ≠ 0` — add the perimeter-cost term to every
contact's normalized cost (lines 619-621) against the finished segment store.
Returns the contact dict in creation order, the segment arena and
`len(tli2segment)`. -/
def calc_segment_contacts (ext : Ext) (p : Params) (m : Mesh) : BuildResult :=
  let vi2w := calc_vi2vgi2weights m p.ignore_vertex_group_indices
  let vshift := pairShift m.verts.length
  let bs := m.tris.foldl (processTri ext p vi2w vshift m) initialBuildState
  let contacts :=
    if p.perimeter_cost_factor ≠ 0 then
      bs.sci2segment_contacts.map (fun q =>
        (q.1, { q.2 with cost_normalized := q.2.cost_normalized +
          p.perimeter_cost_factor *
            calc_perimeter_cost ext.circ q.2 (bs.segments q.2.segment0) (bs.segments q.2.segment1) }))
    else bs.sci2segment_contacts
  ⟨contacts, bs.segments, bs.tli2segment.length⟩

/-- The inputs on which `auto_segment` raises `ValueError` before reaching
any algorithmic step: a mesh with zero vertices makes
`math.log2(vertex_count)` (segmentation.py:446-447) raise, and a mesh with no
loop triangles makes `math.log2(3 * len(tri_loops))` (lines 499-500) raise.
The total embedding's `pairShift` returns `1` at `0` instead. -/
def auto_segment_raises_value_error (m : Mesh) : Bool :=
  m.verts.length == 0 || m.tris.length == 0

/-! ## The priority-ordered contact list

`cost_sorted_segment_contacts` (segmentation.py:259) is a Python list of
contact objects kept in ascending `cost_normalized` order; it is embedded as
the list of contact ids, looked up through the contact arena.  `sortStable`
models the initial stable `sorted(..., key=_get_cost_normalized)`;
`bisectLeft` models `bisect.bisect_left(..., key=...)` by its documented
ascending-list semantics; `insortLeft` models `bisect.insort_left`. -/

/-- Insert `x` after every element whose key is `≤ key x` — the insertion step
of a stable ascending sort. -/
def insertKeyed (key : SCId → ℚ) (x : SCId) : List SCId → List SCId
  | [] => [x]
  | y :: ys => if key y ≤ key x then y :: insertKeyed key x ys else x :: y :: ys

/-- Stable ascending sort by key (models Python's stable `sorted`). -/
def sortStable (key : SCId → ℚ) (l : List SCId) : List SCId :=
  l.foldl (fun acc x => insertKeyed key x acc) []

/-- `bisect.bisect_left(l, x, key=key)` on an ascending list: the length of
the longest prefix whose keys are `< x`. -/
def bisectLeft (key : SCId → ℚ) (l : List SCId) (x : ℚ) : Nat :=
  (l.takeWhile (fun i => decide (key i < x))).length

/-- The identity-based removal scan of `_remove_segment_contact`
(segmentation.py:265-272): from the bisect position onward, delete the first
element equal (by id) to the target; no match deletes nothing. -/
def removeFromSorted (key : SCId → ℚ) (l : List SCId) (x : ℚ) (sci : SCId) :
    List SCId :=
  let s := bisectLeft key l x
  l.take s ++ (l.drop s).erase sci

/-- `bisect.insort_left(l, e, key=key)` where `x = key e`. -/
def insortLeft (key : SCId → ℚ) (l : List SCId) (sci : SCId) (x : ℚ) :
    List SCId :=
  let s := bisectLeft key l x
  l.take s ++ sci :: l.drop s

/-- The identity scan of segmentation.py:347-353: first index `≥ start`
holding `sci`.  (`none` cannot occur on the sorted, consistent lists the
algorithm maintains; the source would misuse a stale loop variable there.) -/
def findIdxFrom (l : List SCId) (start : Nat) (sci : SCId) : Option Nat :=
  match (l.drop start).findIdx? (fun j => j == sci) with
  | some k => some (start + k)
  | none => none

/-! ## The merge engine `auto_segment` -/

/-- The mutable state of the merge loop: the segment arena, the contact arena
(`sci2segment_contacts`; liveness is membership of `sorted`), the
cost-ordered id list `cost_sorted_segment_contacts`, the accumulated
`result_segments` (as ids) and `last_merged_cost`. -/
structure MergeState where
  segments : SegId → Segment
  contactMap : SCId → SegmentContact
  sorted : List SCId
  result_segment_ids : Finset SegId
  last_merged_cost : ℚ

/-- `_remove_segment_contact` (segmentation.py:261-272): pop the contact,
discard its id from both endpoints' contact-id sets, and remove it from the
sorted list by bisect-plus-identity-scan. -/
def remove_segment_contact (st : MergeState) (sci : SCId) : MergeState :=
  let sc := st.contactMap sci
  let segs1 := updSeg st.segments sc.segment0 (fun s =>
    { s with segment_contact_ids := s.segment_contact_ids.erase sci })
  let segs2 := updSeg segs1 sc.segment1 (fun s =>
    { s with segment_contact_ids := s.segment_contact_ids.erase sci })
  { st with segments := segs2,
            sorted := removeFromSorted (fun i => (st.contactMap i).cost_normalized)
              st.sorted sc.cost_normalized sci }

/-- One iteration of the re-pointing loop (segmentation.py:309-315): replace
`src` by `dst` in the contact, then either discard it as a self-loop or
register it with `dst`. -/
def repointOne (dst src : SegId) (st : MergeState) (src_sci : SCId) :
    MergeState :=
  let sc := st.contactMap src_sci
  let r := sc.segment_replace src dst
  if r.2 then
    let st1 := { st with contactMap := fun i => if i = src_sci then r.1 else st.contactMap i }
    if r.1.segment0 = r.1.segment1 then remove_segment_contact st1 src_sci
    else { st1 with segments := updSeg st1.segments dst (fun s =>
      { s with segment_contact_ids := insert src_sci s.segment_contact_ids }) }
  else st

/-- The perimeter refresh of segmentation.py:323-326:
`dst.perimeter = dst.non_contact_perimeter + Σ length of dst's live contacts`. -/
def recomputePerimeter (st : MergeState) (dst : SegId) : MergeState :=
  { st with segments := updSeg st.segments dst (fun s =>
      { s with perimeter := s.non_contact_perimeter +
          s.segment_contact_ids.sum (fun sci => (st.contactMap sci).length) }) }

/-- `_to_segment_pair_id` applied to a contact's endpoints
(segmentation.py:178-183, 332). -/
def segment_pair_id (spShift : Nat) (sc : SegmentContact) : Nat :=
  toPairId sc.segment0 sc.segment1 spShift

/-- The `spi2mergable_segment_contacts` grouping (segmentation.py:329-333):
`dst`'s contact ids, grouped by the packed segment-pair key, groups in
first-appearance order.  `ids` is the ascending enumeration of `dst`'s
contact-id set (CPython iterates its small-int sets this way). -/
def groupsOf (st : MergeState) (spShift : Nat) (ids : List SCId) :
    List (List SCId) :=
  let spiOf := fun i => segment_pair_id spShift (st.contactMap i)
  ((ids.map spiOf).dedup).map (fun spi => ids.filter (fun i => spiOf i == spi))

/-- One absorb-and-remove iteration of the parallel-contact fold
(segmentation.py:342-345): `merged_sc.cost += sc.cost`,
`merged_sc.length += sc.length`, `_remove_segment_contact(sc.index)`. -/
def absorbOne (survivor : SCId) (st' : MergeState) (i : SCId) : MergeState :=
  let sci := st'.contactMap i
  let msc := st'.contactMap survivor
  let st'' := { st' with contactMap := (fun j =>
    if j = survivor then { msc with cost := msc.cost + sci.cost,
                                    length := msc.length + sci.length }
    else st'.contactMap j) }
  remove_segment_contact st'' i

/-- The normalized-cost recomputation of a fold survivor
(segmentation.py:356-358). -/
def survivorNewNorm (ext : Ext) (p : Params) (st1 : MergeState)
    (survivor : SCId) : ℚ :=
  let msc := st1.contactMap survivor
  (if p.perimeter_cost_factor ≠ 0 then
    p.perimeter_cost_factor *
      calc_perimeter_cost ext.circ msc (st1.segments msc.segment0) (st1.segments msc.segment1)
  else 0)
  + msc.cost /
    (if p.contact_length_factor > 0 then msc.length * p.contact_length_factor else 1)

/-- Locate the survivor at its stale key (segmentation.py:347-353), update its
normalized cost, pop it and re-insert it by `insort_left`
(segmentation.py:355-359). -/
def repositionSurvivor (ext : Ext) (p : Params) (survivor : SCId)
    (st1 : MergeState) : MergeState :=
  let found := findIdxFrom st1.sorted
    (bisectLeft (fun j => (st1.contactMap j).cost_normalized) st1.sorted
      ((st1.contactMap survivor).cost_normalized)) survivor
  let newNorm := survivorNewNorm ext p st1 survivor
  let msc := st1.contactMap survivor
  let st2 := { st1 with contactMap := (fun j =>
    if j = survivor then { msc with cost_normalized := newNorm } else st1.contactMap j) }
  match found with
  | none => st2
  | some i =>
    { st2 with sorted := (insortLeft (fun j => (st2.contactMap j).cost_normalized)
        (st2.sorted.eraseIdx i) survivor newNorm) }

/-- Collapse one parallel-contact group (segmentation.py:336-359): the
survivor (`next(iter(...))`, here the least id) absorbs the others' raw costs
and lengths while they are removed; then the survivor is located by
bisect-plus-scan at its stale normalized cost, its normalized cost is
recomputed from the combined totals (plus the perimeter term when enabled),
and it is popped and re-inserted by `insort_left`. -/
def foldGroup (ext : Ext) (p : Params) (st : MergeState) (group : List SCId) :
    MergeState :=
  match group with
  | [] => st
  | survivor :: rest =>
    if rest.isEmpty then st
    else repositionSurvivor ext p survivor (rest.foldl (absorbOne survivor) st)

/-- The absorption of `src` into `dst` (segmentation.py:300-303):
`last_merged_cost = cost`, `dst.tri_loop0s.update(src.tri_loop0s)`,
`dst.area += src_segment_area`. -/
def mergeAbsorb (st : MergeState) (sci : SCId) : MergeState :=
  let sc := st.contactMap sci
  let srcArea := (st.segments sc.segment1).area
  let srcTris := (st.segments sc.segment1).tri_loop0s
  { st with
    last_merged_cost := sc.cost_normalized,
    segments := updSeg st.segments sc.segment0 (fun s =>
      { s with tri_loop0s := s.tri_loop0s ∪ srcTris, area := s.area + srcArea }) }

/-- The re-pointing loop over `src`'s remaining contact ids
(segmentation.py:307-315), iterated in ascending id order. -/
def mergeRepoint (st2 : MergeState) (dst src : SegId) : MergeState :=
  (((st2.segments src).segment_contact_ids).sort (· ≤ ·)).foldl (repointOne dst src) st2

/-- The tail of the accepted-merge body (segmentation.py:317-362): either
finalize an isolated `dst` (`true`, the `continue` path), or refresh `dst`'s
perimeter when the perimeter cost is enabled and collapse `dst`'s parallel
contact groups (`false`, the `break` path). -/
def mergeFinish (ext : Ext) (p : Params) (spShift : Nat) (dst : SegId)
    (st3 : MergeState) : MergeState × Bool :=
  if (st3.segments dst).segment_contact_ids = ∅ then
    ({ st3 with result_segment_ids := insert dst st3.result_segment_ids }, true)
  else
    let st4 := if p.perimeter_cost_factor ≠ 0 then recomputePerimeter st3 dst else st3
    let ids := ((st4.segments dst).segment_contact_ids).sort (· ≤ ·)
    ((groupsOf st4 spShift ids).foldl (foldGroup ext p) st4, false)

/-- The accepted-merge body (segmentation.py:299-362): absorb `src` into
`dst`, remove the consumed contact, re-point `src`'s remaining contacts
(discarding self-loops), then either finalize an isolated `dst`
(returning `true`, the `continue` path of line 321) or refresh the perimeter
and collapse parallel contacts (returning `false`, the `break` path of
line 362). -/
def merge_step (ext : Ext) (p : Params) (spShift : Nat) (st : MergeState)
    (sci : SCId) : MergeState × Bool :=
  let dst := (st.contactMap sci).segment0
  let src := (st.contactMap sci).segment1
  mergeFinish ext p spShift dst
    (mergeRepoint (remove_segment_contact (mergeAbsorb st sci) sci) dst src)

/-- Ghost record of one accepted merge: the full pre-acceptance state, the
accepted contact id, whether the scan segment that found it began at the list
head (a fresh pass or a restart after a non-isolating merge), and the ids
skipped by the area guard since the segment began.  Purely observational —
the algorithm never reads it. -/
structure AcceptRec where
  pre : MergeState
  sci : SCId
  fromRestart : Bool
  skipped : List SCId

def AcceptRec.cost (r : AcceptRec) : ℚ := (r.pre.contactMap r.sci).cost_normalized
def AcceptRec.dstId (r : AcceptRec) : SegId := (r.pre.contactMap r.sci).segment0
def AcceptRec.srcId (r : AcceptRec) : SegId := (r.pre.contactMap r.sci).segment1
def AcceptRec.dstArea (r : AcceptRec) : ℚ := (r.pre.segments r.dstId).area
def AcceptRec.srcArea (r : AcceptRec) : ℚ := (r.pre.segments r.srcId).area

/-- The scan `for segment_contact in cost_sorted_segment_contacts`
(segmentation.py:285-362), including its interaction with concurrent list
mutation: the iterator holds a plain index `i` into the *current* list, so
after an isolating merge (`continue`, line 321) the scan resumes at `i+1` of
the mutated list.  `cost > cost_threshold` breaks the pass (list ascending);
a guard-rejected contact is skipped; an accepted non-isolating merge breaks
the pass with `merging = true`.  `fuel` only pads the structural recursion —
`sorted.length + 1 - i` steps always suffice.  `segStart` and `skippedAcc`
feed the ghost trace. -/
def scanFrom (ext : Ext) (p : Params) (spShift : Nat) :
    Nat → MergeState → Nat → Bool → List SCId → Nat → List AcceptRec →
    MergeState × Bool × List AcceptRec
  | 0, st, _, merging, _, _, recs => (st, merging, recs)
  | fuel + 1, st, i, merging, skippedAcc, segStart, recs =>
    match st.sorted[i]? with
    | none => (st, merging, recs)
    | some sci =>
      let sc := st.contactMap sci
      if sc.cost_normalized > p.cost_threshold then (st, merging, recs)
      else
        let dstA := (st.segments sc.segment0).area
        let srcA := (st.segments sc.segment1).area
        if srcA > p.minimum_area_threshold ∧ dstA + srcA > p.maximum_area_threshold then
          scanFrom ext p spShift fuel st (i + 1) merging (skippedAcc ++ [sci]) segStart recs
        else
          let rec0 : AcceptRec := ⟨st, sci, segStart = 0, skippedAcc⟩
          let r := merge_step ext p spShift st sci
          if r.2 then
            scanFrom ext p spShift fuel r.1 (i + 1) true [] (i + 1) (recs ++ [rec0])
          else
            (r.1, true, recs ++ [rec0])

/-- One iteration of the `while merging` loop (segmentation.py:282-284): a
scan starting from the cheapest contact. -/
def scanPass (ext : Ext) (p : Params) (spShift : Nat) (st : MergeState)
    (recs : List AcceptRec) : MergeState × Bool × List AcceptRec :=
  scanFrom ext p spShift (st.sorted.length + 1) st 0 false [] 0 recs

/-- The `while merging` loop (segmentation.py:281-362), fueled.  `auto_segment`
supplies `initial contact count + 1`, which reaches the fixed point: every
merging pass removes at least one live contact. -/
def mergeLoop (ext : Ext) (p : Params) (spShift : Nat) :
    Nat → MergeState → List AcceptRec → MergeState × List AcceptRec
  | 0, st, recs => (st, recs)
  | fuel + 1, st, recs =>
    let r := scanPass ext p spShift st recs
    if r.2.1 then mergeLoop ext p spShift fuel r.1 r.2.2 else (r.1, r.2.2)

/-- `SegmentResult` (segmentation.py:154-159); `tri_loops` carries the
canonical ids of all loop triangles of the mesh. -/
structure SegmentResult where
  segments : Finset Segment
  remain_segment_contacts : List SegmentContact
  last_merged_cost : ℚ
  tri_loops : List Nat
deriving DecidableEq

/-- `auto_segment`'s value together with the ghost trace of accepted merges. -/
structure AutoSegmentOutput where
  result : SegmentResult
  trace : List AcceptRec

def junkContact : SegmentContact := ⟨0, 0, 0, 0, 0, 0⟩

/-- The initial merge state of `auto_segment` (segmentation.py:259, 274-277):
the contact ids in creation order, stably sorted by normalized cost. -/
def initState (br : BuildResult) : MergeState :=
  let cmap := fun sci => (br.contacts.lookup sci).getD junkContact
  { segments := br.segments,
    contactMap := cmap,
    sorted := sortStable (fun i => (cmap i).cost_normalized) (br.contacts.map Prod.fst),
    result_segment_ids := ∅,
    last_merged_cost := 0 }

/-- `auto_segment` (segmentation.py:224-366).  The zero-segment early return
is line 254-255; the final result set adds every endpoint of a remaining live
contact to the isolated segments accumulated during the run (line 364). -/
def auto_segment (ext : Ext) (p : Params) (m : Mesh) : AutoSegmentOutput :=
  let tri_loops := m.tris.map (·.tli)
  let br := calc_segment_contacts ext p m
  if br.segment_count = 0 then ⟨⟨∅, [], 0, []⟩, []⟩
  else
    let spShift := pairShift br.segment_count
    let st0 := initState br
    let r := mergeLoop ext p spShift (st0.sorted.length + 1) st0 []
    let stF := r.1
    let endpointIds : Finset SegId :=
      (stF.sorted.map (fun sci => (stF.contactMap sci).segment0)).toFinset ∪
      (stF.sorted.map (fun sci => (stF.contactMap sci).segment1)).toFinset
    ⟨⟨(stF.result_segment_ids ∪ endpointIds).image stF.segments,
      stF.sorted.map stF.contactMap, stF.last_merged_cost, tri_loops⟩, r.2⟩

/-! ## Observational checkers used by the theorems -/

/-- Eligibility of a live contact in a state: normalized cost within the
threshold and the area guard of segmentation.py:296 not firing. -/
def eligibleB (p : Params) (st : MergeState) (sci : SCId) : Bool :=
  decide ((st.contactMap sci).cost_normalized ≤ p.cost_threshold) &&
  !(decide ((st.segments (st.contactMap sci).segment1).area > p.minimum_area_threshold) &&
    decide ((st.segments (st.contactMap sci).segment0).area +
      (st.segments (st.contactMap sci).segment1).area > p.maximum_area_threshold))

/-- Whether an accepted merge took the cheapest eligible live contact of its
pre-acceptance state — what restarting the scan from the cheapest contact
guarantees. -/
def minimalEligibleB (p : Params) (r : AcceptRec) : Bool :=
  r.pre.sorted.all (fun sci =>
    !(eligibleB p r.pre sci) || decide (r.cost ≤ (r.pre.contactMap sci).cost_normalized))

/-- Modelled from the spec (§4.1, claim C5's reading): the per-pair
vertex-group weight cost as "the summed per-vertex-group absolute weight
differences" — each group of either map counted once. -/
def spec_pair_weight_cost (w0 w1 : List (Nat × ℚ)) : ℚ :=
  (((w0.map Prod.fst ++ w1.map Prod.fst).dedup).map (fun g =>
    |((w0.lookup g).getD 0) - ((w1.lookup g).getD 0)|)).sum

/-- Modelled from the spec (§4.1, claim C5): `L` times the average of the
A-side contribution (pairs `(v0, far_A)`, `(v1, far_A)`) and the B-side
contribution (pairs `(v0, far_B)`, `(v1, far_B)`). -/
def spec_vertex_group_weight_cost (L : ℚ) (wv0 wv1 wfarA wfarB : List (Nat × ℚ)) : ℚ :=
  L * ((spec_pair_weight_cost wv0 wfarA + spec_pair_weight_cost wv1 wfarA)
     + (spec_pair_weight_cost wv0 wfarB + spec_pair_weight_cost wv1 wfarB)) / 2

/-! ## Concrete inputs used by the counterexample and witness theorems

`ext0` instantiates the two external real constants: the perimeter-cost
factor is `0` in every run below except where noted, so `circ` is never
consumed; `fun q => q` agrees with `sqrt(q)/sqrt(π)` at `0`, the only point
the degenerate-input theorems rely on.  `halfPiInv` is likewise only
multiplied with zero angles below. -/

def ext0 : Ext := ⟨fun q => q, 0⟩

/-- Baseline parameters: threshold `1`, generous area bounds, all cost
factors `1` except the perimeter factor. -/
def pBase : Params :=
  { cost_threshold := 1, maximum_area_threshold := 100, minimum_area_threshold := 0,
    contact_length_factor := 1, face_angle_cost_factor := 1, perimeter_cost_factor := 0,
    vertex_group_weight_cost_factor := 1, vertex_group_change_cost_factor := 1,
    material_change_cost_factor := 1, edge_sharp_cost_factor := 1,
    edge_seam_cost_factor := 1, ignore_vertex_group_indices := ∅ }

/-- `pBase` with `maximum_area_threshold = 0` (the area-lockout setting). -/
def pLock : Params := { pBase with maximum_area_threshold := 0 }

/-- A mesh with a single selected triangle and no neighbours. -/
def meshSolo : Mesh :=
  { verts := [⟨0, []⟩, ⟨1, []⟩, ⟨2, []⟩],
    tris := [⟨0, true, 0, 1, 4, [0, 1, 2]⟩],
    adjs := [] }

/-- Two selected triangles sharing one edge, zero cost everywhere. -/
def meshPair : Mesh :=
  { verts := [⟨0, []⟩, ⟨1, []⟩, ⟨2, []⟩, ⟨3, []⟩],
    tris := [⟨0, true, 0, 1, 4, [0, 1, 2]⟩, ⟨1, true, 0, 1, 4, [1, 2, 3]⟩],
    adjs := [⟨0, 1, 1, 1, 2, 0, 3, true, false, 0⟩] }

/-- Two selected triangles on the same three vertices, sharing two edges —
two radial loop pairs between the same pair of triangles (reachable in
Blender, e.g. a triangle coplanar with one of a quad's corner triangles). -/
def meshDouble : Mesh :=
  { verts := [⟨0, []⟩, ⟨1, []⟩, ⟨2, []⟩],
    tris := [⟨0, true, 0, 1, 4, [0, 1, 2]⟩, ⟨1, true, 0, 1, 4, [2, 1, 0]⟩],
    adjs := [⟨0, 1, 1, 0, 1, 2, 2, true, false, 0⟩, ⟨0, 1, 1, 1, 2, 0, 0, true, false, 0⟩] }

/-- Cost factors isolating the vertex-group weight term
(`contact_length_factor = 0` leaves the raw cost as the sort key). -/
def pWeight : Params :=
  { pBase with
    contact_length_factor := 0, face_angle_cost_factor := 0,
    vertex_group_change_cost_factor := 0, material_change_cost_factor := 0,
    edge_sharp_cost_factor := 0, edge_seam_cost_factor := 0 }

/-- Two triangles sharing the edge `(0, 1)`; vertex `0` carries weight `1` in
group `0`, every other vertex is weightless. -/
def meshWeight : Mesh :=
  { verts := [⟨0, [(0, 1)]⟩, ⟨1, []⟩, ⟨2, []⟩, ⟨3, []⟩],
    tris := [⟨0, true, 0, 1, 4, [0, 1, 2]⟩, ⟨1, true, 0, 1, 4, [0, 1, 3]⟩],
    adjs := [⟨0, 1, 1, 0, 1, 2, 3, true, false, 0⟩] }

/-- Three disjoint selected triangle pairs whose single contacts cost
`1 < 2 < 3` (seam cost times edge length, `contact_length_factor = 0`), all
below the threshold `10`. -/
def pSeam : Params := { pBase with contact_length_factor := 0, cost_threshold := 10 }

def meshThreePairs : Mesh :=
  { verts := (List.range 12).map (fun i => ⟨i, []⟩),
    tris := [⟨0, true, 0, 1, 4, [0, 1, 2]⟩, ⟨1, true, 0, 1, 4, [1, 2, 3]⟩,
             ⟨2, true, 0, 1, 4, [4, 5, 6]⟩, ⟨3, true, 0, 1, 4, [5, 6, 7]⟩,
             ⟨4, true, 0, 1, 4, [8, 9, 10]⟩, ⟨5, true, 0, 1, 4, [9, 10, 11]⟩],
    adjs := [⟨0, 1, 1, 1, 2, 0, 3, true, true, 0⟩,
             ⟨2, 3, 2, 5, 6, 4, 7, true, true, 0⟩,
             ⟨4, 5, 3, 9, 10, 8, 11, true, true, 0⟩] }

/-- The empty mesh: no vertices, no triangles (hence no selected triangles). -/
def meshEmpty : Mesh := ⟨[], [], []⟩

/-- A mesh with vertices and one triangle, nothing selected. -/
def meshUnselected : Mesh :=
  { verts := [⟨0, []⟩, ⟨1, []⟩, ⟨2, []⟩],
    tris := [⟨0, false, 0, 1, 4, [0, 1, 2]⟩],
    adjs := [] }

/-- A degenerate zero-area, zero-perimeter selected triangle (three coincident
vertices) adjacent to a normal selected triangle, with the perimeter cost
enabled — the input on which the build-time perimeter-cost pass
(segmentation.py:619-621) evaluates `calc_perimeter_cost` on a zero-area
endpoint. -/
def pPerim : Params := { pBase with perimeter_cost_factor := 1 }

def meshDegenerate : Mesh :=
  { verts := [⟨0, []⟩, ⟨1, []⟩, ⟨2, []⟩, ⟨3, []⟩],
    tris := [⟨0, true, 0, 0, 0, [0, 1, 2]⟩, ⟨1, true, 0, 1, 4, [1, 2, 3]⟩],
    adjs := [⟨0, 1, 0, 1, 2, 0, 3, true, false, 0⟩] }

/-- Hand-built result segments for the coloring theorems. -/
def segX : Segment := { index := 1, tri_loop0s := {1} }
def segY : Segment := { index := 2, tri_loop0s := {2} }

/-- A hand-built merge state with two parallel contacts (ids 1 and 2) between
segments 1 and 2, for the C4 fold witness. -/
def stC4 : MergeState :=
  { segments := fun i => { index := i },
    contactMap := fun sci => { index := sci, cost := 1, cost_normalized := 1,
                               length := 1, segment0 := 1, segment1 := 2 },
    sorted := [1, 2],
    result_segment_ids := ∅,
    last_merged_cost := 0 }

/-- The per-vertex weight maps of `meshWeight` (for the C5 witness). -/
def vi2wW : List (Nat × List (Nat × ℚ)) :=
  calc_vi2vgi2weights meshWeight pWeight.ignore_vertex_group_indices

def triW0 : MeshTri := ⟨0, true, 0, 1, 4, [0, 1, 2]⟩
def triW1 : MeshTri := ⟨1, true, 0, 1, 4, [0, 1, 3]⟩
def adjW : MeshAdj := ⟨0, 1, 1, 0, 1, 2, 3, true, false, 0⟩

/-! ## Counterexample and failing-input theorems -/

/-- C1: failing input for the claimed partition completeness.  A selected
triangle with no selected neighbour yields a segment with no contacts; the
result set only collects segments isolated *during* merging
(segmentation.py:317-319) and the endpoints of remaining live contacts
(line 364), so on a mesh whose single selected triangle has no neighbour the
builder makes one segment yet `auto_segment` returns an empty segment set —
the selected triangle is in no returned member set, contradicting the claimed
union equality and the selection-boundary scenario. -/
theorem C1_isolated_selected_triangle_dropped :
    (calc_segment_contacts ext0 pBase meshSolo).segment_count = 1
    ∧ (meshSolo.tris.filter (fun t => t.select)).map (fun t => t.tli) = [0]
    ∧ (auto_segment ext0 pBase meshSolo).result.segments = ∅ :=
  of_decide_eq_true (by with_unfolding_all rfl)

/-- C2: failing input for the claimed zero-division safety.
`SegmentContact.calc_perimeter_cost` (segmentation.py:121-151) has no guard at
all: on the contact the builder creates between a zero-area, zero-perimeter
degenerate triangle's segment and a normal segment, every checked evaluation
of the build-time perimeter-cost pass (lines 619-621) hits a zero divisor
(`segment0_perimeter / _area_to_circumference(0)` with
`_area_to_circumference(0) = 0`) — the source raises `ZeroDivisionError`
instead of yielding 0.  `ext0.circ` agrees with `sqrt(a)/sqrt(π)` at `0`, the
only point used. -/
theorem C2_perimeter_cost_div_zero :
    ((calc_segment_contacts ext0 pPerim meshDegenerate).contacts.map (fun q =>
      calc_perimeter_cost_checked ext0.circ q.2
        ((calc_segment_contacts ext0 pPerim meshDegenerate).segments q.2.segment0)
        ((calc_segment_contacts ext0 pPerim meshDegenerate).segments q.2.segment1)))
    = [none] :=
  of_decide_eq_true (by with_unfolding_all rfl)

/-- C4: counterexample to the claimed no-parallel-contacts invariant holding
"immediately after the initial graph build": on two selected triangles
sharing two edges the build creates two live contacts (ids 1 and 2) joining
the same unordered segment pair `(1, 2)`, and nothing collapses them before
the scan starts. -/
theorem C4_initial_parallel_contacts_cex :
    (initState (calc_segment_contacts ext0 pBase meshDouble)).sorted = [1, 2]
    ∧ ((initState (calc_segment_contacts ext0 pBase meshDouble)).contactMap 1).segment0 = 1
    ∧ ((initState (calc_segment_contacts ext0 pBase meshDouble)).contactMap 1).segment1 = 2
    ∧ ((initState (calc_segment_contacts ext0 pBase meshDouble)).contactMap 2).segment0 = 1
    ∧ ((initState (calc_segment_contacts ext0 pBase meshDouble)).contactMap 2).segment1 = 2 :=
  of_decide_eq_true (by with_unfolding_all rfl)

/-- C5: counterexample to the claimed vertex-group weight formula.  With only
the weight factor enabled and length normalization off, the single built
contact's cost is the code's weight term `L * 0.25 * (sum of the four pair
costs)` (segmentation.py:572-580) `= 1/2`, while the spec's "average of the
A-side and B-side contributions, scaled by L" on the same weight maps is
`1`. -/
theorem C5_weight_cost_formula_cex :
    ((calc_segment_contacts ext0 pWeight meshWeight).contacts.map (fun q => q.2.cost)) = [1/2]
    ∧ spec_vertex_group_weight_cost 1 [(0, 1)] [] [] [] = 1
    ∧ ((1 : ℚ)/2) ≠ 1 :=
  of_decide_eq_true (by with_unfolding_all rfl)

/-- C6: counterexample to "restarts its scan from the cheapest live contact
... for every accepted merge including those that leave the destination
isolated".  Three disjoint pairs with contact costs `1 < 2 < 3`: the first
accepted merge isolates its destination, the `continue` of
segmentation.py:321 resumes the iterator at the next index of the *mutated*
list, skipping the cost-2 contact, so the second accepted merge takes cost 3
while the cheaper cost-2 contact was live and eligible — the accepted-cost
sequence is `[1, 3, 2]`, not cheapest-first. -/
theorem C6_scan_not_restarted_cex :
    ((auto_segment ext0 pSeam meshThreePairs).trace.map (fun r => r.cost)) = [1, 3, 2]
    ∧ ((auto_segment ext0 pSeam meshThreePairs).trace.map (minimalEligibleB pSeam))
      = [true, false, true] :=
  of_decide_eq_true (by with_unfolding_all rfl)

/-- C7: failing input for "zero selected triangles ⇒ empty partition, not an
error".  On a mesh with zero vertices (and zero triangles, hence zero
selected triangles) the source raises `ValueError` from `math.log2(0)` at
segmentation.py:446-447 (and would again at lines 499-500) before the
zero-segment early return at line 254 is ever reached. -/
theorem C7_empty_mesh_raises_cex :
    auto_segment_raises_value_error meshEmpty = true
    ∧ meshEmpty.tris.filter (fun t => t.select) = [] :=
  of_decide_eq_true (by with_unfolding_all rfl)

/-- C8: counterexample to "the result contains exactly one segment per
selected triangle" under area lockout.  With `maximum_area_threshold = 0`,
positive triangle areas above the minimum threshold, and a single selected
triangle with no selected neighbour, no merge is accepted (the trace is
empty) — but the result contains zero segments, not one per selected
triangle, because initially contact-free segments are never collected. -/
theorem C8_lockout_isolated_triangle_cex :
    pLock.maximum_area_threshold = 0
    ∧ (meshSolo.tris.filter (fun t => t.select)).length = 1
    ∧ meshSolo.tris.all (fun t =>
        decide (pLock.minimum_area_threshold < t.area) && decide (0 < t.area)) = true
    ∧ (auto_segment ext0 pLock meshSolo).trace.length = 0
    ∧ (auto_segment ext0 pLock meshSolo).result.segments = ∅ :=
  of_decide_eq_true (by with_unfolding_all rfl)

/-- C9: counterexample to "no iteration order of an internal collection (…
the enumeration order of the result segment set during coloring) affects the
outcome".  `assign_vertex_colors` colors segments by enumeration index
(segmentation.py:389-390); enumerating the same two-segment set in the two
possible orders assigns triangle 1 two different palette colors. -/
theorem C9_coloring_order_dependent_cex :
    (assign_vertex_colors [segX, segY] id 0).lookup 1
      ≠ (assign_vertex_colors [segY, segX] id 0).lookup 1 :=
  of_decide_eq_true (by with_unfolding_all rfl)

/-! ## The acceptance discipline of the scan

`EligProp` is the scan's acceptance condition at a live contact;
`AcceptedOK` collects what holds of every ghost record the scan emits: the
accepted contact was live, within the cost threshold, and guard-approved at
its pre-acceptance state; every contact skipped since the segment began was
live and ineligible there; and an acceptance found by a scan segment that
began at the list head saw only ineligible entries at all earlier
positions. -/

def EligProp (p : Params) (st : MergeState) (sci : SCId) : Prop :=
  (st.contactMap sci).cost_normalized ≤ p.cost_threshold
  ∧ ¬ ((st.segments (st.contactMap sci).segment1).area > p.minimum_area_threshold
       ∧ (st.segments (st.contactMap sci).segment0).area
         + (st.segments (st.contactMap sci).segment1).area > p.maximum_area_threshold)

def AcceptedOK (p : Params) (r : AcceptRec) : Prop :=
  (∃ i : Nat, r.pre.sorted[i]? = some r.sci
     ∧ (r.fromRestart = true →
          ∀ j : Nat, j < i → ∃ y, r.pre.sorted[j]? = some y ∧ ¬ EligProp p r.pre y))
  ∧ (r.pre.contactMap r.sci).cost_normalized ≤ p.cost_threshold
  ∧ (r.srcArea ≤ p.minimum_area_threshold
     ∨ r.dstArea + r.srcArea ≤ p.maximum_area_threshold)
  ∧ (∀ x ∈ r.skipped, x ∈ r.pre.sorted ∧ ¬ EligProp p r.pre x)

/-- Master scan lemma: any state property `S` preserved by accepted merge
steps holds of the scan's final state and of every emitted record's pre-state,
and every emitted record satisfies `AcceptedOK`. -/
theorem scanFrom_ok (ext : Ext) (p : Params) (spShift : Nat)
    (S : MergeState → Prop)
    (hS : ∀ st (i : Nat) sci, st.sorted[i]? = some sci → EligProp p st sci → S st →
            S (merge_step ext p spShift st sci).1) :
    ∀ fuel st i merging skippedAcc segStart recs,
    S st →
    (∀ j, segStart ≤ j → j < i → ∃ y, st.sorted[j]? = some y ∧ ¬ EligProp p st y) →
    (∀ x ∈ skippedAcc, x ∈ st.sorted ∧ ¬ EligProp p st x) →
    (∀ r ∈ recs, S r.pre ∧ AcceptedOK p r) →
    S (scanFrom ext p spShift fuel st i merging skippedAcc segStart recs).1
    ∧ ∀ r ∈ (scanFrom ext p spShift fuel st i merging skippedAcc segStart recs).2.2,
        S r.pre ∧ AcceptedOK p r := by
  intro fuel
  induction fuel with
  | zero =>
    intro st i merging skippedAcc segStart recs hst _ _ hrecs
    exact ⟨hst, hrecs⟩
  | succ fuel ih =>
    intro st i merging skippedAcc segStart recs hst hseg hskip hrecs
    rw [scanFrom]
    cases hget : st.sorted[i]? with
    | none => exact ⟨hst, hrecs⟩
    | some sci =>
      simp only
      by_cases hcost : (st.contactMap sci).cost_normalized > p.cost_threshold
      · rw [if_pos hcost]
        exact ⟨hst, hrecs⟩
      · rw [if_neg hcost]
        by_cases hguard : (st.segments (st.contactMap sci).segment1).area
              > p.minimum_area_threshold
            ∧ (st.segments (st.contactMap sci).segment0).area
                + (st.segments (st.contactMap sci).segment1).area
              > p.maximum_area_threshold
        · rw [if_pos hguard]
          refine ih st (i + 1) merging (skippedAcc ++ [sci]) segStart recs hst ?_ ?_ hrecs
          · intro j hj1 hj2
            rcases Nat.lt_or_ge j i with hji | hji
            · exact hseg j hj1 hji
            · have hj : j = i := Nat.le_antisymm (Nat.lt_succ_iff.mp hj2) hji
              subst hj
              exact ⟨sci, hget, fun h => h.2 hguard⟩
          · intro x hx
            rcases List.mem_append.mp hx with hx | hx
            · exact hskip x hx
            · rcases List.mem_singleton.mp hx with rfl
              exact ⟨List.getElem?_mem hget, fun h => h.2 hguard⟩
        · rw [if_neg hguard]
          have helig : EligProp p st sci := ⟨le_of_not_lt hcost, hguard⟩
          have hrec : S st ∧ AcceptedOK p (⟨st, sci, decide (segStart = 0), skippedAcc⟩ : AcceptRec) := by
            refine ⟨hst, ⟨i, hget, ?_⟩, le_of_not_lt hcost, ?_, hskip⟩
            · intro hrest j hj
              have h0 : segStart = 0 := of_decide_eq_true hrest
              exact hseg j (h0 ▸ Nat.zero_le j) hj
            · rcases not_and_or.mp hguard with h | h
              · exact Or.inl (le_of_not_lt h)
              · exact Or.inr (le_of_not_lt h)
          have hrecs' : ∀ r ∈ recs ++ [⟨st, sci, decide (segStart = 0), skippedAcc⟩],
              S r.pre ∧ AcceptedOK p r := by
            intro r hr
            rcases List.mem_append.mp hr with hr | hr
            · exact hrecs r hr
            · rcases List.mem_singleton.mp hr with rfl
              exact hrec
          have hS' : S (merge_step ext p spShift st sci).1 := hS st i sci hget helig hst
          split_ifs with hiso
          · refine ih _ (i + 1) true [] (i + 1) _ hS' ?_ ?_ hrecs'
            · intro j hj1 hj2; omega
            · intro x hx; cases hx
          · exact ⟨hS', hrecs'⟩

/-! ## List-level facts about the priority-list operations -/

theorem takeWhile_length_le_of_getElem? {p : SCId → Bool} :
    ∀ {l : List SCId} {i : Nat} {a : SCId},
    l[i]? = some a → p a = false → (l.takeWhile p).length ≤ i := by
  intro l
  induction l with
  | nil => intro i a h; cases h
  | cons x t iht =>
    intro i a h hpa
    cases i with
    | zero =>
      simp only [List.getElem?_cons_zero, Option.some_inj] at h
      subst h
      simp [List.takeWhile_cons, hpa]
    | succ i =>
      simp only [List.getElem?_cons_succ] at h
      rw [List.takeWhile_cons]
      cases hx : p x with
      | false => simp
      | true => simpa using Nat.succ_le_succ (iht h hpa)

theorem takeWhile_length_le (p : SCId → Bool) (l : List SCId) :
    (l.takeWhile p).length ≤ l.length :=
  (List.takeWhile_sublist p).length_le

theorem bisectLeft_le_length (key : SCId → ℚ) (l : List SCId) (x : ℚ) :
    bisectLeft key l x ≤ l.length :=
  takeWhile_length_le _ l

/-- The bisect position for an element's own key is at or before any
occurrence of that element (irreflexivity of `<`). -/
theorem bisectLeft_le_of_getElem? (key : SCId → ℚ) {l : List SCId} {i : Nat}
    {sci : SCId} (h : l[i]? = some sci) :
    bisectLeft key l (key sci) ≤ i :=
  takeWhile_length_le_of_getElem? h (by simp)

theorem removeFromSorted_sublist (key : SCId → ℚ) (l : List SCId) (x : ℚ)
    (sci : SCId) : List.Sublist (removeFromSorted key l x sci) l := by
  have h : List.Sublist
      (l.take (bisectLeft key l x) ++ (l.drop (bisectLeft key l x)).erase sci)
      (l.take (bisectLeft key l x) ++ l.drop (bisectLeft key l x)) :=
    (List.erase_sublist sci _).append_left _
  rw [List.take_append_drop] at h
  exact h

theorem removeFromSorted_length_le (key : SCId → ℚ) (l : List SCId) (x : ℚ)
    (sci : SCId) : (removeFromSorted key l x sci).length ≤ l.length :=
  (removeFromSorted_sublist key l x sci).length_le

/-- Removing a scanned element at its own key always shrinks the list by one:
the bisect position cannot pass the element's position. -/
theorem removeFromSorted_length_of_getElem? (key : SCId → ℚ) {l : List SCId}
    {i : Nat} {sci : SCId} (h : l[i]? = some sci) :
    (removeFromSorted key l (key sci) sci).length = l.length - 1 := by
  have hs := bisectLeft_le_of_getElem? key h
  have hlen : i < l.length := by
    rcases List.getElem?_eq_some_iff.mp h with ⟨hi, _⟩
    exact hi
  have hmem : sci ∈ l.drop (bisectLeft key l (key sci)) := by
    apply List.getElem?_mem (n := i - bisectLeft key l (key sci))
    rw [List.getElem?_drop]
    rw [show bisectLeft key l (key sci) + (i - bisectLeft key l (key sci)) = i from by omega]
    exact h
  unfold removeFromSorted
  rw [List.length_append, List.length_erase_of_mem hmem, List.length_take,
    List.length_drop]
  have := bisectLeft_le_length key l (key sci)
  omega

theorem insortLeft_length (key : SCId → ℚ) (l : List SCId) (sci : SCId)
    (x : ℚ) : (insortLeft key l sci x).length = l.length + 1 := by
  unfold insortLeft
  rw [List.length_append, List.length_take, List.length_cons, List.length_drop]
  have := bisectLeft_le_length key l x
  omega

theorem insortLeft_mem (key : SCId → ℚ) (l : List SCId) (sci : SCId) (x : ℚ)
    {y : SCId} (h : y ∈ insortLeft key l sci x) : y = sci ∨ y ∈ l := by
  unfold insortLeft at h
  rcases List.mem_append.mp h with h | h
  · exact Or.inr (List.mem_of_mem_take h)
  · rcases List.mem_cons.mp h with h | h
    · exact Or.inl h
    · exact Or.inr (List.mem_of_mem_drop h)

theorem findIdxFrom_some {l : List SCId} {start : Nat} {sci : SCId} {i : Nat}
    (h : findIdxFrom l start sci = some i) :
    i < l.length ∧ l[i]? = some sci := by
  unfold findIdxFrom at h
  cases hk : (l.drop start).findIdx? (fun j => j == sci) with
  | none => rw [hk] at h; cases h
  | some k =>
    rw [hk] at h
    simp only [Option.some_inj] at h
    subst h
    rcases List.findIdx?_eq_some_iff_getElem.mp hk with ⟨hklen, hpk, _⟩
    have hget : (l.drop start)[k]? = some ((l.drop start).get ⟨k, hklen⟩) :=
      List.getElem?_eq_getElem hklen
    have heq : (l.drop start).get ⟨k, hklen⟩ = sci := by
      have := of_decide_eq_true hpk
      simpa using this
    rw [List.getElem?_drop] at hget
    rw [heq] at hget
    have : start + k < l.length := by
      have := List.length_drop start l ▸ hklen
      omega
    exact ⟨this, hget⟩

/-! ## The merge step never grows the contact list, and consumes one contact -/

theorem remove_segment_contact_sorted (st : MergeState) (sci : SCId) :
    (remove_segment_contact st sci).sorted
      = removeFromSorted (fun i => (st.contactMap i).cost_normalized) st.sorted
          ((st.contactMap sci).cost_normalized) sci := rfl

theorem remove_segment_contact_contactMap (st : MergeState) (sci : SCId) :
    (remove_segment_contact st sci).contactMap = st.contactMap := rfl

theorem remove_segment_contact_sublist (st : MergeState) (sci : SCId) :
    List.Sublist (remove_segment_contact st sci).sorted st.sorted :=
  removeFromSorted_sublist _ _ _ _

theorem remove_segment_contact_length_of_getElem? (st : MergeState)
    {sci : SCId} {i : Nat} (h : st.sorted[i]? = some sci) :
    (remove_segment_contact st sci).sorted.length = st.sorted.length - 1 :=
  removeFromSorted_length_of_getElem? (fun i => (st.contactMap i).cost_normalized) h

theorem repointOne_sorted_sublist (dst src : SegId) (st : MergeState)
    (x : SCId) : List.Sublist (repointOne dst src st x).sorted st.sorted := by
  unfold repointOne
  dsimp only
  split_ifs with h1 h2
  · exact remove_segment_contact_sublist _ _
  · exact List.Sublist.refl _
  · exact List.Sublist.refl _

theorem foldl_sorted_sublist (f : MergeState → SCId → MergeState)
    (hf : ∀ st x, List.Sublist (f st x).sorted st.sorted) :
    ∀ (l : List SCId) (st : MergeState),
      List.Sublist (l.foldl f st).sorted st.sorted := by
  intro l
  induction l with
  | nil => intro st; exact List.Sublist.refl _
  | cons a t iht =>
    intro st
    exact (iht (f st a)).trans (hf st a)

theorem absorbOne_sorted_sublist (survivor : SCId) (st : MergeState)
    (x : SCId) : List.Sublist (absorbOne survivor st x).sorted st.sorted :=
  removeFromSorted_sublist _ _ _ _

theorem repositionSurvivor_facts (ext : Ext) (p : Params) (survivor : SCId)
    (st1 : MergeState) :
    (repositionSurvivor ext p survivor st1).sorted.length ≤ st1.sorted.length
    ∧ ∀ y ∈ (repositionSurvivor ext p survivor st1).sorted, y ∈ st1.sorted := by
  unfold repositionSurvivor
  cases hfound : findIdxFrom st1.sorted
      (bisectLeft (fun j => (st1.contactMap j).cost_normalized) st1.sorted
        ((st1.contactMap survivor).cost_normalized)) survivor with
  | none =>
    simp only [hfound]
    exact ⟨le_refl _, fun y hy => hy⟩
  | some i =>
    simp only [hfound]
    rcases findIdxFrom_some hfound with ⟨hilen, hget⟩
    constructor
    · rw [insortLeft_length, List.length_eraseIdx_of_lt hilen]
      omega
    · intro y hy
      rcases insortLeft_mem _ _ _ _ hy with rfl | hy
      · exact List.getElem?_mem hget
      · exact (List.eraseIdx_sublist st1.sorted i).mem hy

theorem foldGroup_length_le (ext : Ext) (p : Params) (st : MergeState)
    (group : List SCId) :
    (foldGroup ext p st group).sorted.length ≤ st.sorted.length
    ∧ ∀ y ∈ (foldGroup ext p st group).sorted, y ∈ st.sorted := by
  unfold foldGroup
  cases group with
  | nil => exact ⟨le_refl _, fun y hy => hy⟩
  | cons survivor rest =>
    simp only
    split_ifs with hrest
    · exact ⟨le_refl _, fun y hy => hy⟩
    · have hsub := foldl_sorted_sublist (absorbOne survivor)
        (absorbOne_sorted_sublist survivor) rest st
      have hrep := repositionSurvivor_facts ext p survivor
        (rest.foldl (absorbOne survivor) st)
      exact ⟨hrep.1.trans hsub.length_le, fun y hy => hsub.mem (hrep.2 y hy)⟩

theorem recomputePerimeter_sorted (st : MergeState) (dst : SegId) :
    (recomputePerimeter st dst).sorted = st.sorted := rfl

theorem foldl_foldGroup_facts (ext : Ext) (p : Params) :
    ∀ (gs : List (List SCId)) (st : MergeState),
    (gs.foldl (foldGroup ext p) st).sorted.length ≤ st.sorted.length
    ∧ ∀ y ∈ (gs.foldl (foldGroup ext p) st).sorted, y ∈ st.sorted := by
  intro gs
  induction gs with
  | nil => intro st; exact ⟨le_refl _, fun y hy => hy⟩
  | cons g t iht =>
    intro st
    have h1 := foldGroup_length_le ext p st g
    have h2 := iht (foldGroup ext p st g)
    exact ⟨h2.1.trans h1.1, fun y hy => h1.2 y (h2.2 y hy)⟩

theorem mergeRepoint_sublist (st2 : MergeState) (dst src : SegId) :
    List.Sublist (mergeRepoint st2 dst src).sorted st2.sorted :=
  foldl_sorted_sublist _ (repointOne_sorted_sublist dst src) _ st2

theorem mergeFinish_facts (ext : Ext) (p : Params) (spShift : Nat)
    (dst : SegId) (st3 : MergeState) :
    (mergeFinish ext p spShift dst st3).1.sorted.length ≤ st3.sorted.length
    ∧ ∀ y ∈ (mergeFinish ext p spShift dst st3).1.sorted, y ∈ st3.sorted := by
  unfold mergeFinish
  dsimp only
  split_ifs with hiso hpcf
  · exact ⟨le_refl _, fun y hy => hy⟩
  · have h := foldl_foldGroup_facts ext p
      (groupsOf (recomputePerimeter st3 dst) spShift
        (((recomputePerimeter st3 dst).segments dst).segment_contact_ids.sort (· ≤ ·)))
      (recomputePerimeter st3 dst)
    rw [recomputePerimeter_sorted] at h
    exact h
  · exact foldl_foldGroup_facts ext p
      (groupsOf st3 spShift ((st3.segments dst).segment_contact_ids.sort (· ≤ ·))) st3

/-- An accepted merge strictly shrinks the live contact list (the consumed
contact is removed and nothing is ever added), and introduces no new contact
ids. -/
theorem merge_step_sorted_facts (ext : Ext) (p : Params) (spShift : Nat)
    (st : MergeState) {sci : SCId} {i : Nat} (h : st.sorted[i]? = some sci) :
    (merge_step ext p spShift st sci).1.sorted.length < st.sorted.length
    ∧ ∀ y ∈ (merge_step ext p spShift st sci).1.sorted, y ∈ st.sorted := by
  have hlen : i < st.sorted.length := (List.getElem?_eq_some_iff.mp h).1
  have h1 : (mergeAbsorb st sci).sorted = st.sorted := rfl
  have h1m : (mergeAbsorb st sci).contactMap = st.contactMap := rfl
  have h2 : (remove_segment_contact (mergeAbsorb st sci) sci).sorted.length
      = st.sorted.length - 1 := by
    have := @remove_segment_contact_length_of_getElem? (mergeAbsorb st sci)
      sci i (by rw [h1]; exact h)
    rw [h1] at this
    exact this
  have h2s : List.Sublist (remove_segment_contact (mergeAbsorb st sci) sci).sorted
      st.sorted := by
    have := remove_segment_contact_sublist (mergeAbsorb st sci) sci
    rw [h1] at this
    exact this
  have h3 := mergeRepoint_sublist (remove_segment_contact (mergeAbsorb st sci) sci)
    ((st.contactMap sci).segment0) ((st.contactMap sci).segment1)
  have h4 := mergeFinish_facts ext p spShift ((st.contactMap sci).segment0)
    (mergeRepoint (remove_segment_contact (mergeAbsorb st sci) sci)
      ((st.contactMap sci).segment0) ((st.contactMap sci).segment1))
  constructor
  · calc (merge_step ext p spShift st sci).1.sorted.length
        ≤ _ := h4.1
      _ ≤ _ := h3.length_le
      _ = st.sorted.length - 1 := h2
      _ < st.sorted.length := by omega
  · intro y hy
    exact h2s.mem (h3.mem (h4.2 y hy))

/-- Within one pass, the contact list never grows, and it strictly shrinks as
soon as a merge is accepted. -/
theorem scanFrom_length (ext : Ext) (p : Params) (spShift : Nat) :
    ∀ fuel st (i : Nat) merging skippedAcc segStart recs,
    (scanFrom ext p spShift fuel st i merging skippedAcc segStart recs).1.sorted.length
      ≤ st.sorted.length
    ∧ (∀ y ∈ (scanFrom ext p spShift fuel st i merging skippedAcc segStart recs).1.sorted,
        y ∈ st.sorted)
    ∧ (merging = false →
        (scanFrom ext p spShift fuel st i merging skippedAcc segStart recs).2.1 = true →
        (scanFrom ext p spShift fuel st i merging skippedAcc segStart recs).1.sorted.length
          < st.sorted.length) := by
  intro fuel
  induction fuel with
  | zero =>
    intro st i merging skippedAcc segStart recs
    refine ⟨le_refl _, fun y hy => hy, ?_⟩
    intro hm hflag
    rw [scanFrom] at hflag
    subst hm
    cases hflag
  | succ fuel ih =>
    intro st i merging skippedAcc segStart recs
    rw [scanFrom]
    cases hget : st.sorted[i]? with
    | none =>
      refine ⟨le_refl _, fun y hy => hy, ?_⟩
      intro hm hflag
      rw [hm] at hflag
      cases hflag
    | some sci =>
      simp only
      have hm := merge_step_sorted_facts ext p spShift st hget
      split_ifs with hcost hguard hiso
      · refine ⟨le_refl _, fun y hy => hy, ?_⟩
        intro hmg hflag
        rw [hmg] at hflag
        cases hflag
      · exact ih st (i + 1) merging (skippedAcc ++ [sci]) segStart recs
      · have hrec := ih (merge_step ext p spShift st sci).1 (i + 1) true [] (i + 1)
          (recs ++ [⟨st, sci, decide (segStart = 0), skippedAcc⟩])
        refine ⟨hrec.1.trans (le_of_lt hm.1), ?_, ?_⟩
        · intro y hy
          exact hm.2 y (hrec.2.1 y hy)
        · intro _ _
          exact lt_of_le_of_lt hrec.1 hm.1
      · exact ⟨le_of_lt hm.1, hm.2, fun _ _ => hm.1⟩

theorem scanPass_length (ext : Ext) (p : Params) (spShift : Nat)
    (st : MergeState) (recs : List AcceptRec) :
    ((scanPass ext p spShift st recs).2.1 = true →
      (scanPass ext p spShift st recs).1.sorted.length < st.sorted.length)
    ∧ ∀ y ∈ (scanPass ext p spShift st recs).1.sorted, y ∈ st.sorted := by
  have h := scanFrom_length ext p spShift (st.sorted.length + 1) st 0 false [] 0 recs
  exact ⟨h.2.2 rfl, h.2.1⟩

/-- With fuel `live contacts + 1` the merging loop has already reached its
fixed point: extra fuel changes nothing. -/
theorem mergeLoop_fixpoint (ext : Ext) (p : Params) (spShift : Nat) :
    ∀ (n : Nat) (st : MergeState) (recs : List AcceptRec), st.sorted.length < n →
    ∀ extra, mergeLoop ext p spShift (st.sorted.length + 1 + extra) st recs
      = mergeLoop ext p spShift (st.sorted.length + 1) st recs := by
  intro n
  induction n with
  | zero => intro st recs h; omega
  | succ n ih =>
    intro st recs hlen extra
    rw [show st.sorted.length + 1 + extra = (st.sorted.length + extra) + 1 from by omega]
    rw [mergeLoop, mergeLoop]
    split_ifs with hflag
    · have hlt := (scanPass_length ext p spShift st recs).1 hflag
      obtain ⟨d, hd⟩ : ∃ d, st.sorted.length
          = (scanPass ext p spShift st recs).1.sorted.length + 1 + d :=
        ⟨st.sorted.length - (scanPass ext p spShift st recs).1.sorted.length - 1, by omega⟩
      rw [show st.sorted.length + extra
          = (scanPass ext p spShift st recs).1.sorted.length + 1 + (d + extra) from by omega]
      rw [hd]
      rw [ih (scanPass ext p spShift st recs).1 (scanPass ext p spShift st recs).2.2
        (by omega) (d + extra)]
      rw [ih (scanPass ext p spShift st recs).1 (scanPass ext p spShift st recs).2.2
        (by omega) d]
    · rfl

/-- Master loop lemma: `scanFrom_ok` iterated over the merging passes. -/
theorem mergeLoop_ok (ext : Ext) (p : Params) (spShift : Nat)
    (S : MergeState → Prop)
    (hS : ∀ st (i : Nat) sci, st.sorted[i]? = some sci → EligProp p st sci → S st →
            S (merge_step ext p spShift st sci).1) :
    ∀ fuel st recs,
    S st →
    (∀ r ∈ recs, S r.pre ∧ AcceptedOK p r) →
    S (mergeLoop ext p spShift fuel st recs).1
    ∧ ∀ r ∈ (mergeLoop ext p spShift fuel st recs).2,
        S r.pre ∧ AcceptedOK p r := by
  intro fuel
  induction fuel with
  | zero => intro st recs hst hrecs; exact ⟨hst, hrecs⟩
  | succ fuel ih =>
    intro st recs hst hrecs
    have hpass := scanFrom_ok ext p spShift S hS (st.sorted.length + 1) st 0 false [] 0 recs
      hst (by intro j hj1 hj2; omega) (by intro x hx; cases hx) hrecs
    have hpass' : S (scanPass ext p spShift st recs).1
        ∧ ∀ r ∈ (scanPass ext p spShift st recs).2.2, S r.pre ∧ AcceptedOK p r := hpass
    rw [mergeLoop]
    split_ifs with h
    · exact ih _ _ hpass'.1 hpass'.2
    · exact hpass'

/-- Every accepted-merge record of an `auto_segment` run satisfies the
acceptance discipline. -/
theorem auto_segment_trace_accepted (ext : Ext) (p : Params) (m : Mesh) :
    ∀ r ∈ (auto_segment ext p m).trace, AcceptedOK p r := by
  intro r hr
  simp only [auto_segment] at hr
  split at hr
  · cases hr
  · exact ((mergeLoop_ok ext p _ (fun _ => True) (fun _ _ _ _ _ _ => trivial) _ _ []
      trivial (by intro x hx; cases hx)).2 r hr).2

/-- A junk record used only to phrase closed witness statements. -/
def junkRec : AcceptRec :=
  ⟨⟨fun i => { index := i }, fun _ => junkContact, [], ∅, 0⟩, 0, false, []⟩

theorem getD_zero_mem {α : Type} (l : List α) (d : α) (h : l.length = 1) :
    l.getD 0 d ∈ l := by
  cases l with
  | nil => cases h
  | cons a t => simp [List.getD]

/-- C3: for every merge the engine accepts, the area guard of
segmentation.py:296 held at the moment of acceptance —
`src.area ≤ minimum_area_threshold` or
`dst.area + src.area ≤ maximum_area_threshold`, where `dst` is the contact's
first endpoint and `src` its second — and every contact the guard skipped
since the scan segment began is still present in the priority list at that
moment (skipping performs no removal). -/
theorem C3_area_guard (ext : Ext) (p : Params) (m : Mesh) :
    ∀ r ∈ (auto_segment ext p m).trace,
      (r.srcArea ≤ p.minimum_area_threshold
        ∨ r.dstArea + r.srcArea ≤ p.maximum_area_threshold)
      ∧ ∀ x ∈ r.skipped, x ∈ r.pre.sorted := by
  intro r hr
  have h := auto_segment_trace_accepted ext p m r hr
  exact ⟨h.2.2.1, fun x hx => (h.2.2.2 x hx).1⟩

/-- Witness for C3 at a concrete accepted merge: the two-triangle mesh run
accepts one merge; its record is in the trace and satisfies the guard and the
skipped-contacts-present property. -/
theorem C3_area_guard_witness :
    ((auto_segment ext0 pBase meshPair).trace.getD 0 junkRec
        ∈ (auto_segment ext0 pBase meshPair).trace)
    ∧ ((((auto_segment ext0 pBase meshPair).trace.getD 0 junkRec).srcArea
          ≤ pBase.minimum_area_threshold
        ∨ ((auto_segment ext0 pBase meshPair).trace.getD 0 junkRec).dstArea
            + ((auto_segment ext0 pBase meshPair).trace.getD 0 junkRec).srcArea
          ≤ pBase.maximum_area_threshold)
       ∧ ∀ x ∈ ((auto_segment ext0 pBase meshPair).trace.getD 0 junkRec).skipped,
           x ∈ ((auto_segment ext0 pBase meshPair).trace.getD 0 junkRec).pre.sorted) := by
  have hmem : (auto_segment ext0 pBase meshPair).trace.getD 0 junkRec
      ∈ (auto_segment ext0 pBase meshPair).trace :=
    getD_zero_mem _ _ (by with_unfolding_all rfl)
  exact ⟨hmem, C3_area_guard ext0 pBase meshPair _ hmem⟩

/-- C10: termination.  (a) A pass that accepts at least one merge strictly
decreases the number of live contacts — each accepted merge removes at least
the consumed contact — and never creates a new contact id; (b) consequently
the outer loop reaches its fixed point within `initial contacts + 1` passes:
the fuel `auto_segment` supplies is insensitive to any further increase. -/
theorem C10_termination (ext : Ext) (p : Params) (spShift : Nat) :
    (∀ (st : MergeState) (recs : List AcceptRec),
      ((scanPass ext p spShift st recs).2.1 = true →
        (scanPass ext p spShift st recs).1.sorted.length < st.sorted.length)
      ∧ ∀ y ∈ (scanPass ext p spShift st recs).1.sorted, y ∈ st.sorted)
    ∧ ∀ (st : MergeState) (recs : List AcceptRec) (extra : Nat),
        mergeLoop ext p spShift (st.sorted.length + 1 + extra) st recs
          = mergeLoop ext p spShift (st.sorted.length + 1) st recs :=
  ⟨fun st recs => scanPass_length ext p spShift st recs,
   fun st recs extra =>
     mergeLoop_fixpoint ext p spShift (st.sorted.length + 1) st recs
       (Nat.lt_succ_self _) extra⟩

/-! ## Color assignment (C9) -/

theorem lookup_setAssoc {β : Type} (k : Nat) (v : β) :
    ∀ (l : List (Nat × β)) (k' : Nat),
    (setAssoc l k v).lookup k' = if k' = k then some v else l.lookup k' := by
  intro l
  induction l with
  | nil =>
    intro k'
    by_cases h : k' = k
    · simp [setAssoc, List.lookup_cons, h]
    · simp [setAssoc, List.lookup_cons, beq_false_of_ne h, h]
  | cons q t iht =>
    intro k'
    rcases q with ⟨a, b⟩
    by_cases hq : a = k
    · have hs : setAssoc ((a, b) :: t) k v = (k, v) :: t := by
        simp [setAssoc, hq]
      rw [hs, List.lookup_cons, List.lookup_cons]
      cases hbeq : k' == k with
      | true =>
        have h : k' = k := by simpa using hbeq
        rw [if_pos h]
      | false =>
        have h : ¬ k' = k := by simpa using hbeq
        rw [if_neg h, hq]
        rw [show (k' == k) = false from hbeq]
    · have hs : setAssoc ((a, b) :: t) k v = (a, b) :: setAssoc t k v := by
        simp [setAssoc, hq]
      rw [hs, List.lookup_cons, List.lookup_cons]
      cases hbeq : k' == a with
      | true =>
        have ha : k' = a := by simpa using hbeq
        rw [if_neg (fun hh => hq (by rw [← ha]; exact hh))]
      | false =>
        exact iht k'

theorem lookup_writeFold (c : RGBA) :
    ∀ (ts : List Nat) (acc : List (Nat × RGBA)) (x : Nat),
    ((ts.foldl (fun acc' t => setAssoc acc' t c) acc).lookup x)
      = if x ∈ ts then some c else acc.lookup x := by
  intro ts
  induction ts with
  | nil => intro acc x; simp
  | cons t rest iht =>
    intro acc x
    rw [List.foldl_cons, iht]
    by_cases hmem : x ∈ rest
    · rw [if_pos hmem, if_pos (List.mem_cons_of_mem t hmem)]
    · rw [if_neg hmem, lookup_setAssoc]
      by_cases hx : x = t
      · rw [if_pos hx, if_pos (hx ▸ List.mem_cons_self t rest)]
      · rw [if_neg hx, if_neg (by simp [List.mem_cons, hx, hmem])]

theorem lookup_writeSegmentColor (colors : List RGBA) (count : Nat)
    (acc : List (Nat × RGBA)) (q : Nat × Segment) (x : Nat) :
    (writeSegmentColor colors count acc q).lookup x
      = if x ∈ q.2.tri_loop0s then some (colors.getD (q.1 % count) (0, 0, 0, 1))
        else acc.lookup x := by
  unfold writeSegmentColor
  dsimp only
  rw [lookup_writeFold]
  by_cases h : x ∈ q.2.tri_loop0s
  · rw [if_pos ((Finset.mem_sort (α := Nat) (· ≤ ·)).mpr h), if_pos h]
  · rw [if_neg (fun hh => h ((Finset.mem_sort (α := Nat) (· ≤ ·)).mp hh)), if_neg h]

theorem writeFold_no_touch (colors : List RGBA) (count : Nat) :
    ∀ (qs : List (Nat × Segment)) (acc : List (Nat × RGBA)) (t : Nat),
    (∀ q ∈ qs, t ∉ q.2.tri_loop0s) →
    (qs.foldl (writeSegmentColor colors count) acc).lookup t = acc.lookup t := by
  intro qs
  induction qs with
  | nil => intro acc t _; rfl
  | cons q rest iht =>
    intro acc t h
    rw [List.foldl_cons, iht _ t (fun q' hq' => h q' (List.mem_cons_of_mem q hq')),
      lookup_writeSegmentColor, if_neg (h q (List.mem_cons_self q rest))]

theorem mem_enumFrom_ex {α : Type} :
    ∀ (l : List α) (k : Nat) (q : Nat × α), q ∈ l.enumFrom k →
    ∃ j, ∃ hj : j < l.length, q.1 = k + j ∧ q.2 = l.get ⟨j, hj⟩ := by
  intro l
  induction l with
  | nil => intro k q h; cases h
  | cons a t iht =>
    intro k q h
    rcases List.mem_cons.mp h with rfl | h
    · exact ⟨0, by simp, by simp, by simp⟩
    · rcases iht (k + 1) q h with ⟨j, hj, h1, h2⟩
      refine ⟨j + 1, by simpa using Nat.succ_lt_succ hj, by omega, ?_⟩
      simpa using h2

theorem assign_enumFrom_lookup (colors : List RGBA) (count : Nat) :
    ∀ (l : List Segment) (k : Nat) (acc : List (Nat × RGBA)) (t : Nat)
      (i : Nat) (hi : i < l.length),
    t ∈ (l.get ⟨i, hi⟩).tri_loop0s →
    (∀ j (hj : j < l.length), j ≠ i → t ∉ (l.get ⟨j, hj⟩).tri_loop0s) →
    ((l.enumFrom k).foldl (writeSegmentColor colors count) acc).lookup t
      = some (colors.getD ((k + i) % count) (0, 0, 0, 1)) := by
  intro l
  induction l with
  | nil => intro k acc t i hi; exact absurd hi (Nat.not_lt_zero i)
  | cons s rest iht =>
    intro k acc t i hi hmem hothers
    rw [show (s :: rest).enumFrom k = (k, s) :: rest.enumFrom (k + 1) from rfl,
      List.foldl_cons]
    cases i with
    | zero =>
      have hno : ∀ q ∈ rest.enumFrom (k + 1), t ∉ q.2.tri_loop0s := by
        intro q hq
        rcases mem_enumFrom_ex rest (k + 1) q hq with ⟨j, hj, _, h2⟩
        have h3 := hothers (j + 1) (Nat.succ_lt_succ hj) (Nat.succ_ne_zero j)
        rw [h2]
        simpa using h3
      rw [writeFold_no_touch colors count _ _ t hno, lookup_writeSegmentColor]
      rw [if_pos (by simpa using hmem)]
      simp
    | succ j =>
      have hj : j < rest.length := Nat.lt_of_succ_lt_succ hi
      have hmem' : t ∈ (rest.get ⟨j, hj⟩).tri_loop0s := by simpa using hmem
      have hothers' : ∀ j' (hj' : j' < rest.length), j' ≠ j →
          t ∉ (rest.get ⟨j', hj'⟩).tri_loop0s := by
        intro j' hj' hne
        have h3 := hothers (j' + 1) (Nat.succ_lt_succ hj')
          (fun hh => hne (Nat.succ_injective hh))
        simpa using h3
      rw [iht (k + 1) (writeSegmentColor colors count acc (k, s)) t j hj hmem' hothers']
      rw [show k + 1 + j = k + (j + 1) from by omega]

/-- C9 (amended): the color assignment is a pure function of the enumeration
order of the result segment set, the shuffle and the seed.  With seed `0`
(unshuffled palette) and pairwise-disjoint segments, every triangle of the
segment enumerated at position `i` receives the palette color at index
`i mod palette size` — uniformly across the segment — so the partition-level
grouping is order-independent, but which color a segment gets depends on the
enumeration position (`C9_coloring_order_dependent_cex`). -/
theorem C9_coloring_by_enumeration (order : List Segment)
    (shuffle : List RGBA → List RGBA)
    (hdisj : ∀ (i j : Nat) (hi : i < order.length) (hj : j < order.length),
        i ≠ j → ∀ t, t ∈ (order.get ⟨i, hi⟩).tri_loop0s →
          t ∉ (order.get ⟨j, hj⟩).tri_loop0s)
    (i : Nat) (hi : i < order.length) (t : Nat)
    (ht : t ∈ (order.get ⟨i, hi⟩).tri_loop0s) :
    (assign_vertex_colors order shuffle 0).lookup t
      = some (SEGMANTATION_COLORS.getD (i % SEGMANTATION_COLORS.length)
          (0, 0, 0, 1)) := by
  unfold assign_vertex_colors
  dsimp only
  rw [if_neg (by simp)]
  have h := assign_enumFrom_lookup SEGMANTATION_COLORS SEGMANTATION_COLORS.length
    order 0 [] t i hi ht
    (fun j hj hne => hdisj i j hi hj (fun hh => hne hh.symm) t ht)
  rw [show order.enum = order.enumFrom 0 from rfl]
  simpa using h

/-- Witness for C9's amended statement on a concrete two-segment enumeration. -/
theorem C9_coloring_by_enumeration_witness :
    (∀ (i j : Nat) (hi : i < ([segX, segY] : List Segment).length)
        (hj : j < ([segX, segY] : List Segment).length),
        i ≠ j → ∀ t, t ∈ (([segX, segY] : List Segment).get ⟨i, hi⟩).tri_loop0s →
          t ∉ (([segX, segY] : List Segment).get ⟨j, hj⟩).tri_loop0s)
    ∧ (assign_vertex_colors [segX, segY] id 0).lookup 1
        = some (SEGMANTATION_COLORS.getD (0 % SEGMANTATION_COLORS.length)
            (0, 0, 0, 1)) := by
  have hdisj : ∀ (i j : Nat) (hi : i < ([segX, segY] : List Segment).length)
      (hj : j < ([segX, segY] : List Segment).length),
      i ≠ j → ∀ t, t ∈ (([segX, segY] : List Segment).get ⟨i, hi⟩).tri_loop0s →
        t ∉ (([segX, segY] : List Segment).get ⟨j, hj⟩).tri_loop0s := by
    intro i j hi hj hne t hti htj
    have hi2 : i < 2 := by simpa using hi
    have hj2 : j < 2 := by simpa using hj
    interval_cases i <;> interval_cases j <;> simp_all [segX, segY]
  exact ⟨hdisj, C9_coloring_by_enumeration [segX, segY] id hdisj 0 (by decide) 1
    (by decide)⟩

/-! ## Zero selected triangles (C7) -/

theorem foldl_id {α β : Type} (f : β → α → β) :
    ∀ (l : List α) (b : β), (∀ x ∈ l, ∀ acc, f acc x = acc) → l.foldl f b = b := by
  intro l
  induction l with
  | nil => intro b _; rfl
  | cons a t iht =>
    intro b h
    rw [List.foldl_cons, h a (List.mem_cons_self a t),
      iht b (fun x hx acc => h x (List.mem_cons_of_mem a hx) acc)]

theorem processTri_unselected (ext : Ext) (p : Params)
    (vi2w : List (Nat × List (Nat × ℚ))) (vshift : Nat) (m : Mesh)
    (bs : BuildState) (t : MeshTri) (h : t.select = false) :
    processTri ext p vi2w vshift m bs t = bs := by
  unfold processTri
  rw [h]
  rfl

/-- C7 (amended): on a mesh with at least one vertex and at least one loop
triangle (so the `math.log2` shift computations do not raise) and zero
selected triangles, `auto_segment` returns the empty partition — empty
segment set, no remaining contacts, last merged cost `0`, empty triangle
list — and performs no merge iteration (empty trace). -/
theorem C7_zero_selected (ext : Ext) (p : Params) (m : Mesh)
    (_hra : auto_segment_raises_value_error m = false)
    (hsel : ∀ t ∈ m.tris, t.select = false) :
    auto_segment ext p m = ⟨⟨∅, [], 0, []⟩, []⟩ := by
  have hfold : m.tris.foldl
      (processTri ext p (calc_vi2vgi2weights m p.ignore_vertex_group_indices)
        (pairShift m.verts.length) m) initialBuildState = initialBuildState :=
    foldl_id _ m.tris initialBuildState
      (fun t ht acc => processTri_unselected ext p _ _ m acc t (hsel t ht))
  have hcount : (calc_segment_contacts ext p m).segment_count = 0 := by
    unfold calc_segment_contacts
    dsimp only
    rw [hfold]
    rfl
  unfold auto_segment
  rw [if_pos hcount]

/-- Witness for C7: a one-triangle, three-vertex mesh with nothing selected. -/
theorem C7_zero_selected_witness :
    auto_segment_raises_value_error meshUnselected = false
    ∧ (∀ t ∈ meshUnselected.tris, t.select = false)
    ∧ auto_segment ext0 pBase meshUnselected = ⟨⟨∅, [], 0, []⟩, []⟩ :=
  ⟨of_decide_eq_true (by with_unfolding_all rfl),
   of_decide_eq_true (by with_unfolding_all rfl),
   C7_zero_selected ext0 pBase meshUnselected
     (of_decide_eq_true (by with_unfolding_all rfl))
     (of_decide_eq_true (by with_unfolding_all rfl))⟩

/-! ## Sortedness of the priority list

The working list is kept in ascending normalized-cost order at all times:
initially by the stable sort, and through every merge step because removals
are order-preserving and the only key update (a fold survivor's) pops the
entry and re-inserts it at its new key's position.  `SortedState` is that
invariant (together with no-duplicate-ids); it is what makes restart-scans
pick a cheapest eligible contact (C6's amended claim). -/

def keyOf (st : MergeState) (sci : SCId) : ℚ := (st.contactMap sci).cost_normalized

def SortedState (st : MergeState) : Prop :=
  st.sorted.Pairwise (fun a b => keyOf st a ≤ keyOf st b) ∧ st.sorted.Nodup

theorem mem_takeWhile_key_lt (key : SCId → ℚ) (x : ℚ) {l : List SCId} {a : SCId}
    (h : a ∈ l.takeWhile (fun i => decide (key i < x))) : key a < x := by
  have := List.mem_takeWhile_imp h
  simpa using this

theorem le_of_mem_dropWhile_sorted (key : SCId → ℚ) (x : ℚ) :
    ∀ (l : List SCId), l.Pairwise (fun a b => key a ≤ key b) →
    ∀ b ∈ l.dropWhile (fun i => decide (key i < x)), x ≤ key b := by
  intro l
  induction l with
  | nil => intro _ b hb; cases hb
  | cons a t iht =>
    intro hp b hb
    rw [List.dropWhile_cons] at hb
    by_cases ha : key a < x
    · rw [if_pos (by simpa using ha)] at hb
      exact iht (List.Pairwise.sublist (List.sublist_cons_self a t) hp) b hb
    · rw [if_neg (by simpa using ha)] at hb
      rcases List.mem_cons.mp hb with rfl | hb
      · exact le_of_not_lt ha
      · exact le_trans (le_of_not_lt ha) ((List.pairwise_cons.mp hp).1 b hb)

theorem take_bisect_eq_takeWhile (key : SCId → ℚ) (l : List SCId) (x : ℚ) :
    l.take (bisectLeft key l x) = l.takeWhile (fun i => decide (key i < x)) := by
  have h := @List.take_left' SCId (l.takeWhile (fun i => decide (key i < x)))
    (l.dropWhile (fun i => decide (key i < x))) (bisectLeft key l x) rfl
  rw [List.takeWhile_append_dropWhile] at h
  exact h

theorem drop_bisect_eq_dropWhile (key : SCId → ℚ) (l : List SCId) (x : ℚ) :
    l.drop (bisectLeft key l x) = l.dropWhile (fun i => decide (key i < x)) := by
  have h := @List.drop_left' SCId (l.takeWhile (fun i => decide (key i < x)))
    (l.dropWhile (fun i => decide (key i < x))) (bisectLeft key l x) rfl
  rw [List.takeWhile_append_dropWhile] at h
  exact h

theorem pairwise_insortLeft (key : SCId → ℚ) (l : List SCId) (sci : SCId)
    (h : l.Pairwise (fun a b => key a ≤ key b)) :
    (insortLeft key l sci (key sci)).Pairwise (fun a b => key a ≤ key b) := by
  unfold insortLeft
  dsimp only
  rw [take_bisect_eq_takeWhile, drop_bisect_eq_dropWhile, List.pairwise_append]
  refine ⟨h.sublist (List.takeWhile_sublist _), ?_, ?_⟩
  · rw [List.pairwise_cons]
    exact ⟨fun b hb => le_of_mem_dropWhile_sorted key (key sci) l h b hb,
      h.sublist (List.dropWhile_sublist _)⟩
  · intro a ha b hb
    have hka := mem_takeWhile_key_lt key (key sci) ha
    rcases List.mem_cons.mp hb with rfl | hb
    · exact le_of_lt hka
    · exact le_of_lt (lt_of_lt_of_le hka
        (le_of_mem_dropWhile_sorted key (key sci) l h b hb))

theorem nodup_insortLeft (key : SCId → ℚ) (l : List SCId) (sci : SCId) (x : ℚ)
    (hn : l.Nodup) (hns : sci ∉ l) : (insortLeft key l sci x).Nodup := by
  unfold insortLeft
  dsimp only
  have hl := List.take_append_drop (bisectLeft key l x) l
  rw [← hl] at hn
  rcases List.nodup_append.mp hn with ⟨h1, h2, hdis⟩
  refine List.nodup_append.mpr ⟨h1, ?_, ?_⟩
  · rw [List.nodup_cons]
    exact ⟨fun hc => hns (List.mem_of_mem_drop hc), h2⟩
  · intro a ha hb
    rcases List.mem_cons.mp hb with rfl | hb
    · exact hns (List.mem_of_mem_take ha)
    · exact hdis ha hb

theorem not_mem_eraseIdx_of_nodup :
    ∀ (l : List SCId) (i : Nat) (a : SCId), l.Nodup → l[i]? = some a →
      a ∉ l.eraseIdx i := by
  intro l
  induction l with
  | nil => intro i a _ h; cases h
  | cons x t iht =>
    intro i a hn h
    cases i with
    | zero =>
      simp only [List.getElem?_cons_zero, Option.some_inj] at h
      subst h
      simpa using (List.nodup_cons.mp hn).1
    | succ i =>
      simp only [List.getElem?_cons_succ] at h
      rw [List.eraseIdx_cons_succ]
      intro hmem
      rcases List.mem_cons.mp hmem with rfl | hmem
      · exact (List.nodup_cons.mp hn).1 (List.getElem?_mem h)
      · exact iht i a (List.nodup_cons.mp hn).2 h hmem

/-- Transport of `SortedState` along operations that only delete entries and
preserve every key. -/
theorem sortedState_transport (st st' : MergeState)
    (hsub : List.Sublist st'.sorted st.sorted)
    (hkey : ∀ i, keyOf st' i = keyOf st i)
    (h : SortedState st) : SortedState st' :=
  ⟨(h.1.sublist hsub).imp (fun hab => by rw [hkey, hkey]; exact hab),
   h.2.sublist hsub⟩

theorem segment_replace_cost_normalized (sc : SegmentContact) (src dst : SegId) :
    (sc.segment_replace src dst).1.cost_normalized = sc.cost_normalized := by
  unfold SegmentContact.segment_replace
  split_ifs <;> rfl

theorem keyOf_repointOne (dst src : SegId) (st : MergeState) (x : SCId)
    (i : SCId) : keyOf (repointOne dst src st x) i = keyOf st i := by
  unfold repointOne
  dsimp only
  split_ifs with h1 h2
  · show keyOf (remove_segment_contact _ x) i = _
    rw [show ∀ st' y, keyOf (remove_segment_contact st' y) i = keyOf st' i
        from fun _ _ => rfl]
    unfold keyOf
    dsimp only
    by_cases hix : i = x
    · rw [if_pos hix, segment_replace_cost_normalized]
      rw [hix]
    · rw [if_neg hix]
  · unfold keyOf
    dsimp only
    by_cases hix : i = x
    · rw [if_pos hix, segment_replace_cost_normalized]
      rw [hix]
    · rw [if_neg hix]
  · rfl

theorem sorted_mergeAbsorb (st : MergeState) (sci : SCId)
    (h : SortedState st) : SortedState (mergeAbsorb st sci) :=
  sortedState_transport st _ (List.Sublist.refl _) (fun _ => rfl) h

theorem sorted_remove (st : MergeState) (sci : SCId)
    (h : SortedState st) : SortedState (remove_segment_contact st sci) :=
  sortedState_transport st _ (remove_segment_contact_sublist st sci)
    (fun _ => rfl) h

theorem sorted_repointOne (dst src : SegId) (st : MergeState) (x : SCId)
    (h : SortedState st) : SortedState (repointOne dst src st x) :=
  sortedState_transport st _ (repointOne_sorted_sublist dst src st x)
    (keyOf_repointOne dst src st x) h

theorem foldl_preserves {α : Type} (P : MergeState → Prop)
    (f : MergeState → α → MergeState) (hf : ∀ st x, P st → P (f st x)) :
    ∀ (l : List α) (st : MergeState), P st → P (l.foldl f st) := by
  intro l
  induction l with
  | nil => intro st h; exact h
  | cons a t iht => intro st h; exact iht (f st a) (hf st a h)

theorem sorted_mergeRepoint (st2 : MergeState) (dst src : SegId)
    (h : SortedState st2) : SortedState (mergeRepoint st2 dst src) :=
  foldl_preserves SortedState _ (fun st x => sorted_repointOne dst src st x) _ st2 h

theorem sorted_recomputePerimeter (st : MergeState) (dst : SegId)
    (h : SortedState st) : SortedState (recomputePerimeter st dst) :=
  sortedState_transport st _ (List.Sublist.refl _) (fun _ => rfl) h

theorem sorted_absorbOne (survivor : SCId) (st : MergeState) (x : SCId)
    (h : SortedState st) : SortedState (absorbOne survivor st x) := by
  unfold absorbOne
  dsimp only
  refine sortedState_transport st _ (removeFromSorted_sublist _ _ _ _) ?_ h
  intro i
  unfold keyOf
  rw [remove_segment_contact_contactMap]
  dsimp only
  by_cases hix : i = survivor
  · rw [if_pos hix, hix]
  · rw [if_neg hix]
theorem keyOf_update_ne (st : MergeState) (survivor : SCId) (c : SegmentContact)
    (j : SCId) (hne : j ≠ survivor) :
    keyOf { st with contactMap := fun k => if k = survivor then c else st.contactMap k } j
      = keyOf st j := by
  unfold keyOf
  dsimp only
  rw [if_neg hne]

theorem findIdxFrom_none_not_mem (l : List SCId) (key : SCId → ℚ) (survivor : SCId)
    (hf : findIdxFrom l (bisectLeft key l (key survivor)) survivor = none) :
    survivor ∉ l := by
  intro hmem
  unfold findIdxFrom at hf
  cases hk : (l.drop (bisectLeft key l (key survivor))).findIdx? (fun j => j == survivor) with
  | some k => rw [hk] at hf; cases hf
  | none =>
    have hnot : survivor ∉ l.drop (bisectLeft key l (key survivor)) := by
      intro hd
      have := List.findIdx?_eq_none_iff.mp hk survivor hd
      simp at this
    have htake : survivor ∉ l.take (bisectLeft key l (key survivor)) := by
      rw [take_bisect_eq_takeWhile]
      intro ht
      exact absurd (mem_takeWhile_key_lt key (key survivor) ht) (lt_irrefl _)
    have hsplit := List.take_append_drop (bisectLeft key l (key survivor)) l
    rw [← hsplit] at hmem
    rcases List.mem_append.mp hmem with h1 | h2
    · exact htake h1
    · exact hnot h2

theorem pairwise_insortLeft_of_key (key : SCId → ℚ) (l : List SCId) (sci : SCId)
    (x : ℚ) (hx : key sci = x) (h : l.Pairwise (fun a b => key a ≤ key b)) :
    (insortLeft key l sci x).Pairwise (fun a b => key a ≤ key b) := by
  subst hx
  exact pairwise_insortLeft key l sci h

theorem sorted_repositionSurvivor (ext : Ext) (p : Params) (survivor : SCId)
    (st1 : MergeState) (h : SortedState st1) :
    SortedState (repositionSurvivor ext p survivor st1) := by
  unfold repositionSurvivor
  dsimp only
  split
  case _ hf =>
    have hns : survivor ∉ st1.sorted :=
      findIdxFrom_none_not_mem st1.sorted (keyOf st1) survivor hf
    refine ⟨?_, h.2⟩
    refine h.1.imp_of_mem ?_
    intro a b ha hb hab
    have hna : a ≠ survivor := fun hc => hns (hc ▸ ha)
    have hnb : b ≠ survivor := fun hc => hns (hc ▸ hb)
    unfold keyOf
    dsimp only
    rw [if_neg hna, if_neg hnb]
    exact hab
  case _ i hf =>
    obtain ⟨hlen, hget⟩ := findIdxFrom_some hf
    have hns : survivor ∉ st1.sorted.eraseIdx i :=
      not_mem_eraseIdx_of_nodup st1.sorted i survivor h.2 hget
    have hnd : (st1.sorted.eraseIdx i).Nodup :=
      h.2.sublist (List.eraseIdx_sublist st1.sorted i)
    have hpw : (st1.sorted.eraseIdx i).Pairwise
        (fun a b => keyOf st1 a ≤ keyOf st1 b) :=
      h.1.sublist (List.eraseIdx_sublist st1.sorted i)
    constructor
    · refine pairwise_insortLeft_of_key _ _ _ _ ?_ ?_
      · unfold keyOf
        dsimp only
        rw [if_pos rfl]
      · refine hpw.imp_of_mem ?_
        intro a b ha hb hab
        have hna : a ≠ survivor := fun hc => hns (hc ▸ ha)
        have hnb : b ≠ survivor := fun hc => hns (hc ▸ hb)
        unfold keyOf
        dsimp only
        rw [if_neg hna, if_neg hnb]
        exact hab
    · exact nodup_insortLeft _ _ _ _ hnd hns

theorem sorted_foldGroup (ext : Ext) (p : Params) (st : MergeState)
    (group : List SCId) (h : SortedState st) :
    SortedState (foldGroup ext p st group) := by
  unfold foldGroup
  cases group with
  | nil => exact h
  | cons survivor rest =>
    dsimp only
    split_ifs with hr
    · exact h
    · exact sorted_repositionSurvivor ext p survivor _
        (foldl_preserves SortedState _
          (fun st' x => sorted_absorbOne survivor st' x) rest st h)

theorem sorted_mergeFinish (ext : Ext) (p : Params) (spShift : Nat) (dst : SegId)
    (st3 : MergeState) (h : SortedState st3) :
    SortedState (mergeFinish ext p spShift dst st3).1 := by
  unfold mergeFinish
  dsimp only
  split_ifs with h1 h2
  · exact ⟨h.1, h.2⟩
  · exact foldl_preserves SortedState _
      (fun st' g => sorted_foldGroup ext p st' g) _ _
      (sorted_recomputePerimeter st3 dst h)
  · exact foldl_preserves SortedState _
      (fun st' g => sorted_foldGroup ext p st' g) _ _ h

theorem sorted_merge_step (ext : Ext) (p : Params) (spShift : Nat)
    (st : MergeState) (sci : SCId) (h : SortedState st) :
    SortedState (merge_step ext p spShift st sci).1 := by
  unfold merge_step
  dsimp only
  exact sorted_mergeFinish ext p spShift _ _
    (sorted_mergeRepoint _ _ _ (sorted_remove _ _ (sorted_mergeAbsorb st sci h)))

theorem mem_insertKeyed (key : SCId → ℚ) (x : SCId) :
    ∀ (l : List SCId) (b : SCId), b ∈ insertKeyed key x l → b = x ∨ b ∈ l := by
  intro l
  induction l with
  | nil =>
    intro b hb
    rw [insertKeyed] at hb
    exact Or.inl (by simpa using hb)
  | cons y ys ih =>
    intro b hb
    rw [insertKeyed] at hb
    split_ifs at hb with hxy
    · rcases List.mem_cons.mp hb with rfl | hb
      · exact Or.inr (List.mem_cons_self _ _)
      · rcases ih b hb with h | h
        · exact Or.inl h
        · exact Or.inr (List.mem_cons_of_mem _ h)
    · rcases List.mem_cons.mp hb with rfl | hb
      · exact Or.inl rfl
      · exact Or.inr hb

theorem pairwise_insertKeyed (key : SCId → ℚ) (x : SCId) :
    ∀ (l : List SCId), l.Pairwise (fun a b => key a ≤ key b) →
    (insertKeyed key x l).Pairwise (fun a b => key a ≤ key b) := by
  intro l
  induction l with
  | nil => intro _; exact List.pairwise_singleton _ _
  | cons y ys ih =>
    intro hp
    rcases List.pairwise_cons.mp hp with ⟨hy, hys⟩
    rw [insertKeyed]
    split_ifs with hxy
    · rw [List.pairwise_cons]
      refine ⟨?_, ih hys⟩
      intro b hb
      rcases mem_insertKeyed key x ys b hb with rfl | hb
      · exact hxy
      · exact hy b hb
    · rw [List.pairwise_cons]
      refine ⟨?_, hp⟩
      intro b hb
      rcases List.mem_cons.mp hb with rfl | hb
      · exact le_of_not_le hxy
      · exact le_trans (le_of_not_le hxy) (hy b hb)

theorem insertKeyed_perm (key : SCId → ℚ) (x : SCId) :
    ∀ (l : List SCId), List.Perm (insertKeyed key x l) (x :: l) := by
  intro l
  induction l with
  | nil => rw [insertKeyed]
  | cons y ys ih =>
    rw [insertKeyed]
    split_ifs with hxy
    · exact (ih.cons y).trans (List.Perm.swap x y ys)
    · exact List.Perm.refl _

theorem foldl_insertKeyed_perm (key : SCId → ℚ) :
    ∀ (l acc : List SCId),
    List.Perm (l.foldl (fun acc' x => insertKeyed key x acc') acc) (l ++ acc) := by
  intro l
  induction l with
  | nil => intro acc; exact List.Perm.refl _
  | cons x t ih =>
    intro acc
    rw [List.foldl_cons, List.cons_append]
    exact (((ih _).trans ((insertKeyed_perm key x acc).append_left t)).trans
      List.perm_middle)

theorem foldl_insertKeyed_pairwise (key : SCId → ℚ) :
    ∀ (l acc : List SCId), acc.Pairwise (fun a b => key a ≤ key b) →
    (l.foldl (fun acc' x => insertKeyed key x acc') acc).Pairwise
      (fun a b => key a ≤ key b) := by
  intro l
  induction l with
  | nil => intro acc h; exact h
  | cons x t ih =>
    intro acc h
    rw [List.foldl_cons]
    exact ih _ (pairwise_insertKeyed key x acc h)

/-- The initial priority list of `auto_segment` (a stable sort of the
creation-order contact ids, segmentation.py:274-277) is ascending in
normalized cost and duplicate-free whenever the builder's contact ids are. -/
theorem initState_sortedState (br : BuildResult)
    (hn : (br.contacts.map Prod.fst).Nodup) : SortedState (initState br) := by
  unfold SortedState keyOf initState sortStable
  dsimp only
  constructor
  · exact foldl_insertKeyed_pairwise _ _ _ List.Pairwise.nil
  · exact ((foldl_insertKeyed_perm _ _ _).nodup_iff).mpr (by simpa using hn)

/-- C6 (amended): the cheapest-first discipline that actually holds.  The
scan is restarted from the head of the priority list only after a merge whose
destination kept at least one contact (the `break` of segmentation.py:362) or
at a fresh pass; after an isolated-destination merge (`continue`,
segmentation.py:321) the scan resumes mid-list.  For every accepted merge
whose scan segment did begin at the head (`fromRestart`), the accepted
contact is minimal: its normalized cost is `≤` that of every eligible contact
in the priority list at that moment — because the list is kept ascending by
normalized cost and every entry before the accepted one was ineligible. -/
theorem C6_restart_minimal (ext : Ext) (p : Params) (m : Mesh)
    (hn : ((calc_segment_contacts ext p m).contacts.map Prod.fst).Nodup) :
    ∀ r ∈ (auto_segment ext p m).trace, r.fromRestart = true →
      ∀ sci ∈ r.pre.sorted, EligProp p r.pre sci →
        (r.pre.contactMap r.sci).cost_normalized
          ≤ (r.pre.contactMap sci).cost_normalized := by
  intro r hr hres sci hmem helig
  simp only [auto_segment] at hr
  split at hr
  · cases hr
  · have hrun := (mergeLoop_ok ext p _ SortedState
      (fun st' i' sci' _ _ h => sorted_merge_step ext p _ st' sci' h)
      _ _ [] (initState_sortedState _ hn) (by intro x hx; cases hx)).2 r hr
    obtain ⟨hsorted, hacc⟩ := hrun
    obtain ⟨i, hgi, hrst⟩ := hacc.1
    obtain ⟨hi_lt, hi_eq⟩ := List.getElem?_eq_some.mp hgi
    obtain ⟨j, hj_lt, hj_eq⟩ := List.getElem_of_mem hmem
    rcases lt_trichotomy j i with hji | hji | hij
    · obtain ⟨y, hy, hyne⟩ := hrst hres j hji
      have hy2 : sci = y := by
        obtain ⟨hjl, hje⟩ := List.getElem?_eq_some.mp hy
        rw [← hje]
        exact hj_eq.symm
      exact absurd (hy2 ▸ helig) hyne
    · subst hji
      have hse : sci = r.sci := hj_eq.symm.trans hi_eq
      rw [hse]
    · have hpw := List.pairwise_iff_getElem.mp hsorted.1 i j hi_lt hj_lt hij
      rw [hi_eq, hj_eq] at hpw
      exact hpw

/-- Witness for C6 at the two-triangle mesh: its single accepted merge came
from a head-started scan segment, contact 1 was live and eligible at that
moment, and the accepted cost is bounded by contact 1's cost. -/
theorem C6_restart_minimal_witness :
    ((calc_segment_contacts ext0 pBase meshPair).contacts.map Prod.fst).Nodup
    ∧ ((auto_segment ext0 pBase meshPair).trace.getD 0 junkRec).fromRestart = true
    ∧ (1 : SCId) ∈ ((auto_segment ext0 pBase meshPair).trace.getD 0 junkRec).pre.sorted
    ∧ EligProp pBase ((auto_segment ext0 pBase meshPair).trace.getD 0 junkRec).pre 1
    ∧ (((auto_segment ext0 pBase meshPair).trace.getD 0 junkRec).pre.contactMap
         ((auto_segment ext0 pBase meshPair).trace.getD 0 junkRec).sci).cost_normalized
      ≤ (((auto_segment ext0 pBase meshPair).trace.getD 0 junkRec).pre.contactMap
          1).cost_normalized := by
  have helig : EligProp pBase
      ((auto_segment ext0 pBase meshPair).trace.getD 0 junkRec).pre 1 :=
    ⟨of_decide_eq_true (by with_unfolding_all rfl),
     of_decide_eq_true (by with_unfolding_all rfl)⟩
  refine ⟨of_decide_eq_true (by with_unfolding_all rfl),
          of_decide_eq_true (by with_unfolding_all rfl),
          of_decide_eq_true (by with_unfolding_all rfl),
          helig,
          C6_restart_minimal ext0 pBase meshPair
            (of_decide_eq_true (by with_unfolding_all rfl))
            _ (getD_zero_mem _ junkRec (by with_unfolding_all rfl))
            (of_decide_eq_true (by with_unfolding_all rfl))
            1 (of_decide_eq_true (by with_unfolding_all rfl))
            helig⟩

theorem scanFrom_no_elig (ext : Ext) (p : Params) (spShift : Nat)
    (st : MergeState) (hne : ∀ sci ∈ st.sorted, ¬ EligProp p st sci) :
    ∀ (fuel : Nat) (i : Nat) (skippedAcc : List SCId) (segStart : Nat)
      (recs : List AcceptRec),
    scanFrom ext p spShift fuel st i false skippedAcc segStart recs
      = (st, false, recs) := by
  intro fuel
  induction fuel with
  | zero => intro i skippedAcc segStart recs; rfl
  | succ fuel ih =>
    intro i skippedAcc segStart recs
    rw [scanFrom]
    cases hget : st.sorted[i]? with
    | none => rfl
    | some sci =>
      simp only
      have hn := hne sci (List.getElem?_mem hget)
      by_cases hcost : (st.contactMap sci).cost_normalized > p.cost_threshold
      · rw [if_pos hcost]
      · rw [if_neg hcost]
        have hguard : (st.segments (st.contactMap sci).segment1).area
              > p.minimum_area_threshold
            ∧ (st.segments (st.contactMap sci).segment0).area
              + (st.segments (st.contactMap sci).segment1).area
              > p.maximum_area_threshold := by
          by_contra hg
          exact hn ⟨le_of_not_lt hcost, hg⟩
        rw [if_pos hguard]
        exact ih (i + 1) (skippedAcc ++ [sci]) segStart recs

theorem mergeLoop_no_elig (ext : Ext) (p : Params) (spShift : Nat)
    (st : MergeState) (hne : ∀ sci ∈ st.sorted, ¬ EligProp p st sci) :
    ∀ (fuel : Nat) (recs : List AcceptRec),
    mergeLoop ext p spShift fuel st recs = (st, recs) := by
  intro fuel recs
  cases fuel with
  | zero => rfl
  | succ fuel =>
    have h := scanFrom_no_elig ext p spShift st hne (st.sorted.length + 1) 0 [] 0 recs
    rw [mergeLoop, show scanPass ext p spShift st recs = (st, false, recs) from h]
    rfl

/-- C8 (amended): under area lockout — `maximum_area_threshold = 0` with
every live contact joining segments of positive area whose source side
exceeds `minimum_area_threshold` — no merge is ever accepted: the trace is
empty, the last merged cost stays `0`, and the result set is exactly the
image of the segment store over the endpoint ids of the initial contacts.
One singleton segment is returned per selected triangle that shares an
effective (deduplicated, both-selected) edge with another selected triangle;
selected triangles with no initial contact are dropped entirely (the C1
defect), so "exactly one segment per selected triangle" fails for them. -/
theorem C8_lockout_no_merge (ext : Ext) (p : Params) (m : Mesh)
    (hmax : p.maximum_area_threshold = 0)
    (hcnt : (calc_segment_contacts ext p m).segment_count ≠ 0)
    (harea : ∀ sci ∈ (initState (calc_segment_contacts ext p m)).sorted,
        p.minimum_area_threshold
          < ((initState (calc_segment_contacts ext p m)).segments
              ((initState (calc_segment_contacts ext p m)).contactMap sci).segment1).area
        ∧ 0 < ((initState (calc_segment_contacts ext p m)).segments
              ((initState (calc_segment_contacts ext p m)).contactMap sci).segment0).area
        ∧ 0 < ((initState (calc_segment_contacts ext p m)).segments
              ((initState (calc_segment_contacts ext p m)).contactMap sci).segment1).area) :
    (auto_segment ext p m).trace = []
    ∧ (auto_segment ext p m).result.last_merged_cost = 0
    ∧ (auto_segment ext p m).result.segments
        = Finset.image (initState (calc_segment_contacts ext p m)).segments
            (((initState (calc_segment_contacts ext p m)).sorted.map
                (fun sci => ((initState (calc_segment_contacts ext p m)).contactMap
                  sci).segment0)).toFinset
              ∪ ((initState (calc_segment_contacts ext p m)).sorted.map
                (fun sci => ((initState (calc_segment_contacts ext p m)).contactMap
                  sci).segment1)).toFinset) := by
  have hne : ∀ sci ∈ (initState (calc_segment_contacts ext p m)).sorted,
      ¬ EligProp p (initState (calc_segment_contacts ext p m)) sci := by
    intro sci hmem helig
    obtain ⟨h1, h2, h3⟩ := harea sci hmem
    exact helig.2 ⟨h1, by rw [hmax]; exact add_pos h2 h3⟩
  have hloop := mergeLoop_no_elig ext p
    (pairShift (calc_segment_contacts ext p m).segment_count)
    (initState (calc_segment_contacts ext p m)) hne
    ((initState (calc_segment_contacts ext p m)).sorted.length + 1) []
  unfold auto_segment
  rw [if_neg hcnt]
  dsimp only
  rw [hloop]
  refine ⟨rfl, rfl, ?_⟩
  dsimp only
  rw [show (initState (calc_segment_contacts ext p m)).result_segment_ids
    = (∅ : Finset SegId) from rfl]
  rw [Finset.empty_union]

/-- Witness for C8 on the two-triangle mesh under lockout parameters: one
initial contact, both areas `1 > 0 = minimum`, `maximum = 0` — no merge, and
the result is the image of the two endpoint segments. -/
theorem C8_lockout_no_merge_witness :
    pLock.maximum_area_threshold = 0
    ∧ (calc_segment_contacts ext0 pLock meshPair).segment_count ≠ 0
    ∧ (∀ sci ∈ (initState (calc_segment_contacts ext0 pLock meshPair)).sorted,
        pLock.minimum_area_threshold
          < ((initState (calc_segment_contacts ext0 pLock meshPair)).segments
              ((initState (calc_segment_contacts ext0 pLock meshPair)).contactMap
                sci).segment1).area
        ∧ 0 < ((initState (calc_segment_contacts ext0 pLock meshPair)).segments
              ((initState (calc_segment_contacts ext0 pLock meshPair)).contactMap
                sci).segment0).area
        ∧ 0 < ((initState (calc_segment_contacts ext0 pLock meshPair)).segments
              ((initState (calc_segment_contacts ext0 pLock meshPair)).contactMap
                sci).segment1).area)
    ∧ (auto_segment ext0 pLock meshPair).trace = []
    ∧ (auto_segment ext0 pLock meshPair).result.last_merged_cost = 0
    ∧ (auto_segment ext0 pLock meshPair).result.segments
        = Finset.image (initState (calc_segment_contacts ext0 pLock meshPair)).segments
            (((initState (calc_segment_contacts ext0 pLock meshPair)).sorted.map
                (fun sci => ((initState (calc_segment_contacts ext0 pLock meshPair)).contactMap
                  sci).segment0)).toFinset
              ∪ ((initState (calc_segment_contacts ext0 pLock meshPair)).sorted.map
                (fun sci => ((initState (calc_segment_contacts ext0 pLock meshPair)).contactMap
                  sci).segment1)).toFinset) := by
  have h := C8_lockout_no_merge ext0 pLock meshPair
    (of_decide_eq_true (by with_unfolding_all rfl))
    (of_decide_eq_true (by with_unfolding_all rfl))
    (of_decide_eq_true (by with_unfolding_all rfl))
  exact ⟨of_decide_eq_true (by with_unfolding_all rfl),
         of_decide_eq_true (by with_unfolding_all rfl),
         of_decide_eq_true (by with_unfolding_all rfl),
         h.1, h.2.1, h.2.2⟩

theorem remove_not_mem (st : MergeState) (x : SCId) (h : SortedState st) :
    x ∉ (remove_segment_contact st x).sorted := by
  unfold remove_segment_contact removeFromSorted
  dsimp only
  intro hmem
  rcases List.mem_append.mp hmem with h1 | h2
  · rw [take_bisect_eq_takeWhile] at h1
    exact absurd (mem_takeWhile_key_lt _ _ h1) (lt_irrefl _)
  · exact (((h.2.sublist (List.drop_sublist _ _)).mem_erase_iff).mp h2).1 rfl

theorem absorbOne_not_mem (survivor : SCId) (st : MergeState) (x : SCId)
    (h : SortedState st) : x ∉ (absorbOne survivor st x).sorted := by
  unfold absorbOne
  dsimp only
  apply remove_not_mem
  refine sortedState_transport st _ (List.Sublist.refl _) ?_ h
  intro i
  unfold keyOf
  dsimp only
  by_cases hix : i = survivor
  · rw [if_pos hix, hix]
  · rw [if_neg hix]

theorem foldl_absorb_removes (survivor : SCId) :
    ∀ (l : List SCId) (st : MergeState), SortedState st →
    ∀ x ∈ l, x ∉ (l.foldl (absorbOne survivor) st).sorted := by
  intro l
  induction l with
  | nil => intro st _ x hx; cases hx
  | cons a t ih =>
    intro st hst x hx
    rw [List.foldl_cons]
    rcases List.mem_cons.mp hx with rfl | hx
    · intro hmem
      exact absorbOne_not_mem survivor st x hst
        ((foldl_sorted_sublist _ (absorbOne_sorted_sublist survivor) t
          (absorbOne survivor st x)).mem hmem)
    · exact ih (absorbOne survivor st a)
        (sorted_absorbOne survivor st a hst) x hx

/-- C4 (amended): the collapse that actually holds.  Immediately after the
initial graph build parallel contacts can exist — two triangles sharing two
edges yield two live contacts between the same segment pair
(`C4_initial_parallel_contacts_cex`), because the builder deduplicates by
loop pair, not by segment pair — and they persist until one endpoint takes
part in a non-isolating accepted merge.  What the fold of
segmentation.py:336-359 guarantees: when a parallel group
`survivor :: rest` of the merge destination's contacts is collapsed over a
priority list that is ascending in normalized cost and duplicate-free, every
non-survivor member of the group is removed from the priority list before
the scan resumes. -/
theorem C4_parallel_fold_collapses (ext : Ext) (p : Params) (st : MergeState)
    (survivor : SCId) (rest : List SCId) (hsorted : SortedState st) :
    ∀ x ∈ rest, x ∉ (foldGroup ext p st (survivor :: rest)).sorted := by
  intro x hx
  unfold foldGroup
  dsimp only
  split_ifs with hr
  · rw [List.isEmpty_iff] at hr
    subst hr
    cases hx
  · intro hmem
    exact foldl_absorb_removes survivor rest st hsorted x hx
      ((repositionSurvivor_facts ext p survivor
        (rest.foldl (absorbOne survivor) st)).2 x hmem)

/-- Witness for C4's amended collapse on a two-contact parallel group. -/
theorem C4_parallel_fold_collapses_witness :
    SortedState stC4
    ∧ (2 : SCId) ∉ (foldGroup ext0 pBase stC4 [1, 2]).sorted := by
  have hs : SortedState stC4 :=
    ⟨of_decide_eq_true (by with_unfolding_all rfl),
     of_decide_eq_true (by with_unfolding_all rfl)⟩
  exact ⟨hs, C4_parallel_fold_collapses ext0 pBase stC4 1 [2] hs 2 (by decide)⟩

/-! ## The vertex-pair weight memo and the built contact cost (C5) -/

theorem pair_weight_cost_comm (w0 w1 : List (Nat × ℚ)) :
    pair_weight_cost w0 w1 = pair_weight_cost w1 w0 :=
  add_comm _ _

theorem pair_weight_cost_min_max (W : Nat → List (Nat × ℚ)) (a b : Nat) :
    pair_weight_cost (W a) (W b)
      = pair_weight_cost (W (min a b)) (W (max a b)) := by
  rcases le_total a b with h | h
  · rw [min_eq_left h, max_eq_right h]
  · rw [min_eq_right h, max_eq_left h, pair_weight_cost_comm]

theorem toPairId_eq_min_max (i0 i1 s : Nat) :
    toPairId i0 i1 s = min i0 i1 + max i0 i1 * 2^s := by
  unfold toPairId
  rw [Nat.shiftLeft_eq, Nat.shiftLeft_eq]
  split_ifs with h
  · rw [min_eq_right (le_of_lt h), max_eq_left (le_of_lt h)]
  · rw [min_eq_left (le_of_not_lt h), max_eq_right (le_of_not_lt h)]

theorem toPairId_inj {s a b c d : Nat} (ha : a < 2^s) (hc : c < 2^s)
    (h : toPairId a b s = toPairId c d s) :
    min a b = min c d ∧ max a b = max c d := by
  rw [toPairId_eq_min_max, toPairId_eq_min_max] at h
  have hkpos : 0 < 2^s := pow_pos (by norm_num) s
  have hmab : min a b < 2^s := lt_of_le_of_lt (Nat.min_le_left a b) ha
  have hmcd : min c d < 2^s := lt_of_le_of_lt (Nat.min_le_left c d) hc
  have hmod := congrArg (fun x => x % 2^s) h
  simp only [Nat.add_mul_mod_self_right] at hmod
  rw [Nat.mod_eq_of_lt hmab, Nat.mod_eq_of_lt hmcd] at hmod
  refine ⟨hmod, ?_⟩
  rw [hmod] at h
  exact Nat.eq_of_mul_eq_mul_right hkpos (Nat.add_left_cancel h)

/-- The memo-table invariant of `vpi2weights`: when the two looked-up vertex
ids are below `2^vshift`, every cached entry at their packed key holds the
pure pair weight cost of the pair. -/
def MemoOK (vi2w : List (Nat × List (Nat × ℚ))) (vshift : Nat)
    (tbl : List (Nat × ℚ)) : Prop :=
  ∀ v0 v1 : Nat, v0 < 2^vshift → v1 < 2^vshift →
    ∀ w, tbl.lookup (toPairId v0 v1 vshift) = some w →
      w = pair_weight_cost (vgWeights vi2w v0) (vgWeights vi2w v1)

theorem lookup_append_single (kk : Nat) (vv : ℚ) :
    ∀ (tbl : List (Nat × ℚ)) (x : Nat),
    (tbl ++ [(kk, vv)]).lookup x = tbl.lookup x
    ∨ (tbl.lookup x = none ∧ (tbl ++ [(kk, vv)]).lookup x
        = (if x == kk then some vv else none)) := by
  intro tbl
  induction tbl with
  | nil =>
    intro x
    refine Or.inr ⟨rfl, ?_⟩
    rw [List.nil_append, List.lookup_cons]
    cases hx : x == kk <;> rfl
  | cons q t ih =>
    intro x
    obtain ⟨qk, qv⟩ := q
    rw [List.cons_append, List.lookup_cons, List.lookup_cons]
    cases hbeq : x == qk
    · exact ih x
    · exact Or.inl rfl

theorem calcVGWC_val (vi2w : List (Nat × List (Nat × ℚ))) (vshift : Nat)
    (tbl : List (Nat × ℚ)) (v0 v1 : Nat)
    (hmemo : MemoOK vi2w vshift tbl) (h0 : v0 < 2^vshift) (h1 : v1 < 2^vshift) :
    (calcVGWC vi2w vshift tbl v0 v1).1
      = pair_weight_cost (vgWeights vi2w v0) (vgWeights vi2w v1)
    ∧ MemoOK vi2w vshift (calcVGWC vi2w vshift tbl v0 v1).2 := by
  unfold calcVGWC
  dsimp only
  cases hl : tbl.lookup (toPairId v0 v1 vshift) with
  | some w => exact ⟨hmemo v0 v1 h0 h1 w hl, hmemo⟩
  | none =>
    refine ⟨rfl, ?_⟩
    intro u0 u1 hu0 hu1 w hw
    dsimp only at hw
    rcases lookup_append_single (toPairId v0 v1 vshift)
        (pair_weight_cost (vgWeights vi2w v0) (vgWeights vi2w v1))
        tbl (toPairId u0 u1 vshift) with hca | ⟨hnone, hval⟩
    · rw [hca] at hw
      exact hmemo u0 u1 hu0 hu1 w hw
    · rw [hval] at hw
      by_cases hbeq : toPairId u0 u1 vshift = toPairId v0 v1 vshift
      · rw [if_pos (beq_iff_eq.mpr hbeq)] at hw
        obtain ⟨hmin, hmax⟩ := toPairId_inj hu0 h0 hbeq
        have hw' : w = pair_weight_cost (vgWeights vi2w v0) (vgWeights vi2w v1) :=
          (Option.some_inj.mp hw).symm
        rw [hw', pair_weight_cost_min_max (vgWeights vi2w) u0 u1, hmin, hmax,
          ← pair_weight_cost_min_max (vgWeights vi2w) v0 v1]
      · rw [if_neg (by simpa using hbeq)] at hw
        cases hw

theorem getSegId_fields (bs : BuildState) (tli : Nat) :
    (getSegId bs tli).2.vpi2weights = bs.vpi2weights
    ∧ (getSegId bs tli).2.sci2segment_contacts = bs.sci2segment_contacts
    ∧ (getSegId bs tli).2.next_segment_contact_id = bs.next_segment_contact_id := by
  unfold getSegId
  cases bs.tli2segment.lookup tli <;> exact ⟨rfl, rfl, rfl⟩

/-- C5 (amended): the vertex-group weight term the builder actually charges.
For every effective adjacency record (the neighbour triangle exists and is
selected) the appended contact's raw cost is
`Σ factor_i * term_i` with the weight term
`L * (1/4) * (c(v0,farA) + c(v1,farA) + c(v0,farB) + c(v1,farB))` — a quarter,
not the claimed half, of the four-pair sum — where `c(u,v)` sums the
per-group absolute weight differences over the groups of `u` *plus* over the
groups of `v`, so a group carried by both vertices is counted twice (the
ignore-list groups are excluded earlier, when the per-vertex weight maps are
built).  The memoized pair costs coincide with the pure `pair_weight_cost`
whenever the table satisfies `MemoOK` and all four vertex ids are below
`2^vshift` (so the packed memo keys cannot collide). -/
theorem C5_weight_cost_formula (ext : Ext) (p : Params)
    (vi2w : List (Nat × List (Nat × ℚ))) (vshift : Nat) (m : Mesh) (t : MeshTri)
    (thisSid : SegId) (thisHeaviest : Int) (bs : BuildState) (acc : ℚ)
    (a : MeshAdj) (thatTri : MeshTri)
    (hfind : m.tris.find? (fun tt => tt.tli == a.that_tli) = some thatTri)
    (hsel : thatTri.select = true)
    (hmemo : MemoOK vi2w vshift bs.vpi2weights)
    (hb0 : a.vert0 < 2^vshift) (hb1 : a.vert1 < 2^vshift)
    (hb2 : a.this_far < 2^vshift) (hb3 : a.that_far < 2^vshift) :
    ∃ sc : SegmentContact,
      (processAdj ext p vi2w vshift m t thisSid thisHeaviest (bs, acc) a).1.sci2segment_contacts
        = bs.sci2segment_contacts ++ [(bs.next_segment_contact_id + 1, sc)]
      ∧ sc.length = a.edge_length
      ∧ sc.cost
          = p.vertex_group_weight_cost_factor *
              (a.edge_length * (1/4) *
                (pair_weight_cost (vgWeights vi2w a.vert0) (vgWeights vi2w a.this_far)
                 + pair_weight_cost (vgWeights vi2w a.vert1) (vgWeights vi2w a.this_far)
                 + pair_weight_cost (vgWeights vi2w a.vert0) (vgWeights vi2w a.that_far)
                 + pair_weight_cost (vgWeights vi2w a.vert1) (vgWeights vi2w a.that_far)))
            + p.vertex_group_change_cost_factor *
                (a.edge_length *
                  (if thisHeaviest = calc_heaviest_vertex_group_index vi2w thatTri
                   then 0 else 1))
            + p.face_angle_cost_factor * (a.edge_length * ext.halfPiInv * a.normal_angle)
            + p.material_change_cost_factor *
                (a.edge_length *
                  (if t.material_index = thatTri.material_index then 0 else 1))
            + p.edge_sharp_cost_factor * (a.edge_length * (if a.smooth then 0 else 1))
            + p.edge_seam_cost_factor * (a.edge_length * (if a.seam then 1 else 0)) := by
  have h0 := calcVGWC_val vi2w vshift bs.vpi2weights a.vert0 a.this_far hmemo hb0 hb2
  have h1 := calcVGWC_val vi2w vshift
    (calcVGWC vi2w vshift bs.vpi2weights a.vert0 a.this_far).2
    a.vert1 a.this_far h0.2 hb1 hb2
  have hseg := getSegId_fields
    { bs with vpi2weights :=
        (calcVGWC vi2w vshift
          (calcVGWC vi2w vshift bs.vpi2weights a.vert0 a.this_far).2
          a.vert1 a.this_far).2 } a.that_tli
  have h2 := calcVGWC_val vi2w vshift
    (getSegId
      { bs with vpi2weights :=
          (calcVGWC vi2w vshift
            (calcVGWC vi2w vshift bs.vpi2weights a.vert0 a.this_far).2
            a.vert1 a.this_far).2 } a.that_tli).2.vpi2weights
    a.vert0 a.that_far (hseg.1 ▸ h1.2) hb0 hb3
  have h3 := calcVGWC_val vi2w vshift
    (calcVGWC vi2w vshift
      (getSegId
        { bs with vpi2weights :=
            (calcVGWC vi2w vshift
              (calcVGWC vi2w vshift bs.vpi2weights a.vert0 a.this_far).2
              a.vert1 a.this_far).2 } a.that_tli).2.vpi2weights
      a.vert0 a.that_far).2
    a.vert1 a.that_far h2.2 hb1 hb3
  unfold processAdj
  rw [hfind]
  dsimp only
  rw [hsel]
  simp only [Bool.not_true, Bool.false_eq_true, if_false]
  simp only [h0.1, h1.1, h2.1, h3.1, hseg.2.1, hseg.2.2]
  exact ⟨_, rfl, rfl, rfl⟩

/-- Witness for C5's amended statement: the single effective adjacency of the
two-triangle weighted mesh, processed on the empty memo table. -/
theorem C5_weight_cost_formula_witness :
    meshWeight.tris.find? (fun tt => tt.tli == adjW.that_tli) = some triW1
    ∧ triW1.select = true
    ∧ MemoOK vi2wW 2 initialBuildState.vpi2weights
    ∧ adjW.vert0 < 2^2 ∧ adjW.vert1 < 2^2
    ∧ adjW.this_far < 2^2 ∧ adjW.that_far < 2^2
    ∧ (∃ sc : SegmentContact,
        (processAdj ext0 pWeight vi2wW 2 meshWeight triW0 1 0
            (initialBuildState, 0) adjW).1.sci2segment_contacts
          = initialBuildState.sci2segment_contacts
            ++ [(initialBuildState.next_segment_contact_id + 1, sc)]
        ∧ sc.length = adjW.edge_length
        ∧ sc.cost
            = pWeight.vertex_group_weight_cost_factor *
                (adjW.edge_length * (1/4) *
                  (pair_weight_cost (vgWeights vi2wW adjW.vert0) (vgWeights vi2wW adjW.this_far)
                   + pair_weight_cost (vgWeights vi2wW adjW.vert1) (vgWeights vi2wW adjW.this_far)
                   + pair_weight_cost (vgWeights vi2wW adjW.vert0) (vgWeights vi2wW adjW.that_far)
                   + pair_weight_cost (vgWeights vi2wW adjW.vert1) (vgWeights vi2wW adjW.that_far)))
              + pWeight.vertex_group_change_cost_factor *
                  (adjW.edge_length *
                    (if (0 : Int) = calc_heaviest_vertex_group_index vi2wW triW1
                     then 0 else 1))
              + pWeight.face_angle_cost_factor *
                  (adjW.edge_length * ext0.halfPiInv * adjW.normal_angle)
              + pWeight.material_change_cost_factor *
                  (adjW.edge_length *
                    (if triW0.material_index = triW1.material_index then 0 else 1))
              + pWeight.edge_sharp_cost_factor *
                  (adjW.edge_length * (if adjW.smooth then 0 else 1))
              + pWeight.edge_seam_cost_factor *
                  (adjW.edge_length * (if adjW.seam then 1 else 0))) := by
  have hmemo : MemoOK vi2wW 2 initialBuildState.vpi2weights :=
    fun v0 v1 _ _ w hw => nomatch hw
  refine ⟨rfl, rfl, hmemo,
    of_decide_eq_true (by with_unfolding_all rfl),
    of_decide_eq_true (by with_unfolding_all rfl),
    of_decide_eq_true (by with_unfolding_all rfl),
    of_decide_eq_true (by with_unfolding_all rfl), ?_⟩
  exact C5_weight_cost_formula ext0 pWeight vi2wW 2 meshWeight triW0 1 0
    initialBuildState 0 adjW triW1 rfl rfl hmemo
    (of_decide_eq_true (by with_unfolding_all rfl))
    (of_decide_eq_true (by with_unfolding_all rfl))
    (of_decide_eq_true (by with_unfolding_all rfl))
    (of_decide_eq_true (by with_unfolding_all rfl))

theorem C10_termination_witness :
    ((scanPass ext0 pBase 1 (initState (calc_segment_contacts ext0 pBase meshPair)) []).2.1
        = true)
    ∧ (scanPass ext0 pBase 1 (initState (calc_segment_contacts ext0 pBase meshPair)) []).1.sorted.length
        < (initState (calc_segment_contacts ext0 pBase meshPair)).sorted.length := by
  refine ⟨of_decide_eq_true (by with_unfolding_all rfl), ?_⟩
  exact ((C10_termination ext0 pBase 1).1
    (initState (calc_segment_contacts ext0 pBase meshPair)) []).1
    (of_decide_eq_true (by with_unfolding_all rfl))

end Seg
